import Mathlib

/-!
Verification development for the pair-binning / distortion-matrix / Wick
covariance engine of `py/picca/xcf.py`.

Shallow embedding conventions:
* Python floats are modelled by `ℚ`; `numpy` arrays by `List ℚ` (aligned by
  index) or, for accumulator arrays and matrices, by total functions
  `ℕ → ℚ` / `ℤ → ℚ` / `ℤ → ℤ → ℚ` that are zero outside the touched cells.
* Transcendental library functions (`np.cos`, `np.sin`, `10.**x`, the
  cosmology distance conversions, the redshift-evolution powers
  `((1+z)/(1+z_ref))**(a-1)`) are uninterpreted parameters of type `ℚ → ℚ`:
  the engine only ever applies them pointwise, and every property proved
  here holds for all values of those parameters.
* `astype(int)` on a numpy float array truncates toward zero; `sp.floor`
  is the floor.  Both are modelled explicitly.
* The random draws of `np.random.rand` are explicit inputs: a list of
  rationals, one draw per neighbour (respectively per delta in `wickT`),
  each lying in `[0, 1)` as `numpy` guarantees.
* The module-level configuration globals of `xcf.py` are gathered into a
  `Config` record.
-/

/-- `astype(int)` of numpy: truncation of a float toward zero. -/
def np_astype_int (q : ℚ) : ℤ := if 0 ≤ q then ⌊q⌋ else ⌈q⌉

/-- The module-level configuration globals of `xcf.py` (bin counts, window
edges, rejection probability, angular-mode flag). -/
structure Config where
  num_bins_r_par : ℕ
  num_bins_r_trans : ℕ
  num_model_bins_r_par : ℕ
  num_model_bins_r_trans : ℕ
  r_par_max : ℚ
  r_par_min : ℚ
  r_trans_max : ℚ
  reject : ℚ
  ang_correlation : Bool

/-- Uninterpreted real-valued library functions used pointwise by the
engine: `np.cos`, `np.sin`, and `x ↦ 10.**x`. -/
structure RealFns where
  cos : ℚ → ℚ
  sin : ℚ → ℚ
  pow10 : ℚ → ℚ

/-- An `Object` entity (one reference point source), with the attributes
read by `xcf.py`. -/
structure Obj where
  thingid : ℤ
  z_qso : ℚ
  weights : ℚ
  r_comov : ℚ
  dist_m : ℚ
  log_lambda : ℚ

/-- A `Delta` entity (one spectrum), with the attributes read by `xcf.py`.
`neighbours` is the transient field assigned by `fill_neighs` (`none`
models Python `None`).  `ang` carries the values of `delta ^ neighbours`
(the arccos of the angular separation to each neighbour, aligned with
`neighbours`), supplied as an input because `arccos` is transcendental. -/
structure Delta where
  thingid : ℤ
  z_qso : ℚ
  z : List ℚ
  r_comov : List ℚ
  dist_m : List ℚ
  log_lambda : List ℚ
  weights : List ℚ
  delta : List ℚ
  neighbours : Option (List Obj)
  ang : List ℚ

/-- The neighbour list a computation pass reads off a delta (the pass runs
after `fill_neighs` assigned it). -/
def Delta.neighs (d : Delta) : List Obj := d.neighbours.getD []

/-- Row-major (numpy C-order) enumeration of the index pairs of an
`n1 × n2` outer-product array, the order in which a masked flattened
array lists its surviving entries. -/
def pairList (n1 n2 : ℕ) : List (ℕ × ℕ) :=
  (List.range n1).flatMap (fun i => (List.range n2).map (fun j => (i, j)))

/-- The pair-selection window of `compute_xi_forest_pairs`
(`xcf.py` line 213):
`w = (r_par > r_par_min) & (r_par < r_par_max) & (r_trans < r_trans_max)`. -/
def xi_pair_mask (cfg : Config) (rp rt : ℚ) : Prop :=
  cfg.r_par_min < rp ∧ rp < cfg.r_par_max ∧ rt < cfg.r_trans_max

instance (cfg : Config) (rp rt : ℚ) : Decidable (xi_pair_mask cfg rp rt) :=
  inferInstanceAs (Decidable
    (cfg.r_par_min < rp ∧ rp < cfg.r_par_max ∧ rt < cfg.r_trans_max))

/-- The pair-selection window of `compute_dmat_forest_pairs`
(`xcf.py` line 347):
`w = (r_par > r_par_min) & (r_par < r_par_max) & (r_trans < r_trans_max)`. -/
def dmat_pair_mask (cfg : Config) (rp rt : ℚ) : Prop :=
  cfg.r_par_min < rp ∧ rp < cfg.r_par_max ∧ rt < cfg.r_trans_max

instance (cfg : Config) (rp rt : ℚ) : Decidable (dmat_pair_mask cfg rp rt) :=
  inferInstanceAs (Decidable
    (cfg.r_par_min < rp ∧ rp < cfg.r_par_max ∧ rt < cfg.r_trans_max))

/-- Parallel-separation bin on the data grid:
`bins_r_par = ((r_par - r_par_min)/(r_par_max - r_par_min)*num_bins_r_par).astype(int)`. -/
def bin_r_par (cfg : Config) (rp : ℚ) : ℤ :=
  np_astype_int ((rp - cfg.r_par_min) / (cfg.r_par_max - cfg.r_par_min) *
    (cfg.num_bins_r_par : ℚ))

/-- Transverse-separation bin on the data grid:
`bins_r_trans = (r_trans/r_trans_max*num_bins_r_trans).astype(int)`. -/
def bin_r_trans (cfg : Config) (rt : ℚ) : ℤ :=
  np_astype_int (rt / cfg.r_trans_max * (cfg.num_bins_r_trans : ℚ))

/-- Flattened data-grid bin: `bins = bins_r_trans + num_bins_r_trans*bins_r_par`. -/
def bin_index (cfg : Config) (rp rt : ℚ) : ℤ :=
  bin_r_trans cfg rt + (cfg.num_bins_r_trans : ℤ) * bin_r_par cfg rp

/-- Parallel-separation bin on the model grid (model bin counts). -/
def model_bin_r_par (cfg : Config) (rp : ℚ) : ℤ :=
  np_astype_int ((rp - cfg.r_par_min) / (cfg.r_par_max - cfg.r_par_min) *
    (cfg.num_model_bins_r_par : ℚ))

/-- Transverse-separation bin on the model grid (model bin counts). -/
def model_bin_r_trans (cfg : Config) (rt : ℚ) : ℤ :=
  np_astype_int (rt / cfg.r_trans_max * (cfg.num_model_bins_r_trans : ℚ))

/-- Flattened model-grid bin:
`model_bins = model_bins_r_trans + num_model_bins_r_trans*model_bins_r_par`. -/
def model_bin_index (cfg : Config) (rp rt : ℚ) : ℤ :=
  model_bin_r_trans cfg rt + (cfg.num_model_bins_r_trans : ℤ) * model_bin_r_par cfg rp

/-- One surviving (forest pixel, object) pair of `compute_xi_forest_pairs`,
carrying the quantities the accumulators read. -/
structure XiPair where
  i : ℕ
  j : ℕ
  rp : ℚ
  rt : ℚ
  z : ℚ
  w1i : ℚ
  d1i : ℚ
  w2j : ℚ

/-- `weights12 = weights1[:, None]*weights2` at a surviving pair. -/
def XiPair.w12 (p : XiPair) : ℚ := p.w1i * p.w2j

/-- `delta_times_weight = (weights1*delta1)[:, None]*weights2` at a
surviving pair. -/
def XiPair.dtw (p : XiPair) : ℚ := p.w1i * p.d1i * p.w2j

/-- Data-grid bin of a surviving pair. -/
def XiPair.bin (cfg : Config) (p : XiPair) : ℤ := bin_index cfg p.rp p.rt

/-- The surviving pairs of one `compute_xi_forest_pairs` call, in the
flattened (row-major) order of the masked numpy arrays.  The separation
algebra follows `xcf.py` lines 202-218: in angular-correlation mode
`r_par` is the distance ratio and `r_trans` the raw angle, otherwise
`r_par = (r_comov1[:,None]-r_comov2)*cos(ang/2)` and
`r_trans = (dist_m1[:,None]+dist_m2)*sin(ang/2)`. -/
def compute_xi_forest_pairs (cfg : Config) (fns : RealFns)
    (z1 r_comov1 dist_m1 weights1 delta1 z2 r_comov2 dist_m2 weights2 ang :
      List ℚ) : List XiPair :=
  (pairList r_comov1.length r_comov2.length).filterMap (fun ij =>
    let i := ij.1
    let j := ij.2
    let rp := if cfg.ang_correlation then r_comov1.getD i 0 / r_comov2.getD j 0
      else (r_comov1.getD i 0 - r_comov2.getD j 0) * fns.cos (ang.getD j 0 / 2)
    let rt := if cfg.ang_correlation then ang.getD j 0
      else (dist_m1.getD i 0 + dist_m2.getD j 0) * fns.sin (ang.getD j 0 / 2)
    if xi_pair_mask cfg rp rt then
      some { i := i, j := j, rp := rp, rt := rt,
             z := (z1.getD i 0 + z2.getD j 0) / 2,
             w1i := weights1.getD i 0, d1i := delta1.getD i 0,
             w2j := weights2.getD j 0 }
    else none)

/-- `np.bincount(bins, weights=f)` read at index `b`: the sum of `f` over
the surviving pairs whose flattened bin is `b`. -/
def rebin (cfg : Config) (ps : List XiPair) (f : XiPair → ℚ) (b : ℕ) : ℚ :=
  (ps.map (fun p => if p.bin cfg = (b : ℤ) then f p else 0)).sum

/-- The six per-bin accumulator arrays of `compute_xi`. -/
structure XiAcc where
  weights : ℕ → ℚ
  xi : ℕ → ℚ
  r_par : ℕ → ℚ
  r_trans : ℕ → ℚ
  z : ℕ → ℚ
  num_pairs : ℕ → ℚ

/-- The zero-initialised accumulators of `compute_xi`. -/
def xi_zero : XiAcc :=
  { weights := fun _ => 0, xi := fun _ => 0, r_par := fun _ => 0,
    r_trans := fun _ => 0, z := fun _ => 0, num_pairs := fun _ => 0 }

/-- The surviving pairs contributed by one delta in `compute_xi`
(`xcf.py` lines 124-143): the angular branch passes `10.**log_lambda` in
both distance slots and the neighbours' `10.**log_lambda`, the standard
branch passes the comoving distances. -/
def xi_delta_pairs (cfg : Config) (fns : RealFns) (d : Delta) : List XiPair :=
  let ns := d.neighs
  let z_qso := ns.map (fun o => o.z_qso)
  let weights_qso := ns.map (fun o => o.weights)
  if cfg.ang_correlation then
    compute_xi_forest_pairs cfg fns d.z (d.log_lambda.map fns.pow10)
      (d.log_lambda.map fns.pow10) d.weights d.delta z_qso
      (ns.map (fun o => fns.pow10 o.log_lambda))
      (ns.map (fun o => fns.pow10 o.log_lambda)) weights_qso d.ang
  else
    compute_xi_forest_pairs cfg fns d.z d.r_comov d.dist_m d.weights d.delta
      z_qso (ns.map (fun o => o.r_comov)) (ns.map (fun o => o.dist_m))
      weights_qso d.ang

/-- One iteration of the delta loop of `compute_xi` (lines 117-151): if the
delta's neighbour list is non-empty, add the rebinned contributions of its
pairs into each accumulator (`xi[:len(rebin_xi)] += rebin_xi`, etc.). -/
def xi_add_delta (cfg : Config) (fns : RealFns) (a : XiAcc) (d : Delta) :
    XiAcc :=
  if d.neighs.length = 0 then a
  else
    let ps := xi_delta_pairs cfg fns d
    { weights := fun b => a.weights b + rebin cfg ps (fun p => p.w12) b,
      xi := fun b => a.xi b + rebin cfg ps (fun p => p.dtw) b,
      r_par := fun b => a.r_par b + rebin cfg ps (fun p => p.rp * p.w12) b,
      r_trans := fun b => a.r_trans b + rebin cfg ps (fun p => p.rt * p.w12) b,
      z := fun b => a.z b + rebin cfg ps (fun p => p.z * p.w12) b,
      num_pairs := fun b =>
        a.num_pairs b + rebin cfg ps (fun p => if 0 < p.w12 then 1 else 0) b }

/-- The raw (pre-normalisation) accumulators of `compute_xi` over a list of
deltas (the healpix loop flattened). -/
def xi_accumulate (cfg : Config) (fns : RealFns) (ds : List Delta) : XiAcc :=
  ds.foldl (xi_add_delta cfg fns) xi_zero

/-- `compute_xi` (`xcf.py` lines 94-158): accumulate over all deltas, then
normalise (`w = weights > 0; xi[w] /= weights[w]` and likewise for
`r_par`, `r_trans`, `z`); the `weights` and `num_pairs` arrays are
returned undivided.  Bins not selected by `w` keep their accumulated
value. -/
def compute_xi (cfg : Config) (fns : RealFns) (ds : List Delta) : XiAcc :=
  let acc := xi_accumulate cfg fns ds
  { weights := acc.weights,
    xi := fun b => if 0 < acc.weights b then acc.xi b / acc.weights b
      else acc.xi b,
    r_par := fun b => if 0 < acc.weights b then acc.r_par b / acc.weights b
      else acc.r_par b,
    r_trans := fun b => if 0 < acc.weights b then acc.r_trans b / acc.weights b
      else acc.r_trans b,
    z := fun b => if 0 < acc.weights b then acc.z b / acc.weights b
      else acc.z b,
    num_pairs := acc.num_pairs }

/-- The per-delta entity mutation of `compute_xi` (`xcf.py` line 151):
`setattr(delta, "neighbours", None)`; every other field is untouched. -/
def compute_xi_delta_update (d : Delta) : Delta := { d with neighbours := none }

/-- One surviving (forest pixel `i`, object `j`) pair of
`compute_dmat_forest_pairs`, with its separations and pair weight. -/
structure DmatPair where
  i : ℕ
  j : ℕ
  rp : ℚ
  rt : ℚ
  z : ℚ
  w12 : ℚ

/-- Data-grid bin of a surviving dmat pair (`bins`, lines 350-354). -/
def DmatPair.bin (cfg : Config) (p : DmatPair) : ℤ := bin_index cfg p.rp p.rt

/-- Model-grid bin of a surviving dmat pair (`model_bins`, lines 357-362). -/
def DmatPair.mbin (cfg : Config) (p : DmatPair) : ℤ :=
  model_bin_index cfg p.rp p.rt

/-- The surviving pairs of one `compute_dmat_forest_pairs` call
(`xcf.py` lines 344-347, 383-387):
`r_par = (r_comov1[:,None]-r_comov2)*cos(ang/2)`,
`r_trans = (dist_m1[:,None]+dist_m2)*sin(ang/2)`, `z = (z1[:,None]+z2)/2`,
`weights12 = weights1[:,None]*weights2`, masked and flattened row-major. -/
def compute_dmat_pairs (cfg : Config) (fns : RealFns)
    (r_comov1 dist_m1 z1 weights1 r_comov2 dist_m2 z2 weights2 ang : List ℚ) :
    List DmatPair :=
  (pairList r_comov1.length r_comov2.length).filterMap (fun ij =>
    let i := ij.1
    let j := ij.2
    let rp := (r_comov1.getD i 0 - r_comov2.getD j 0) *
      fns.cos (ang.getD j 0 / 2)
    let rt := (dist_m1.getD i 0 + dist_m2.getD j 0) *
      fns.sin (ang.getD j 0 / 2)
    if dmat_pair_mask cfg rp rt then
      some { i := i, j := j, rp := rp, rt := rt,
             z := (z1.getD i 0 + z2.getD j 0) / 2,
             w12 := weights1.getD i 0 * weights2.getD j 0 }
    else none)

/-- `np.bincount(model_bins, weights=f)` of the dmat engine read at model
bin `b`. -/
def mrebin (cfg : Config) (ps : List DmatPair) (f : DmatPair → ℚ) (b : ℕ) :
    ℚ :=
  (ps.map (fun p => if p.mbin cfg = (b : ℤ) then f p else 0)).sum

/-- `np.bincount(bins, weights=weights12)` of the dmat engine read at data
bin `b` (`rebin` added into `weights_dmat`, lines 398-399). -/
def drebin (cfg : Config) (ps : List DmatPair) (b : ℕ) : ℚ :=
  (ps.map (fun p => if p.bin cfg = (b : ℤ) then p.w12 else 0)).sum

/-- `sum_weights1 = weights1.sum()` (line 368). -/
def sum_weights (weights1 : List ℚ) : ℚ := weights1.sum

/-- `mean_log_lambda1 = np.average(log_lambda1, weights=weights1)`
(line 371). -/
def mean_log_lambda (log_lambda1 weights1 : List ℚ) : ℚ :=
  ((List.zip weights1 log_lambda1).map (fun wl => wl.1 * wl.2)).sum /
    weights1.sum

/-- `log_lambda_minus_mean1 = log_lambda1 - mean_log_lambda1` read at pixel
`i` (line 374). -/
def log_lambda_minus_mean (log_lambda1 weights1 : List ℚ) (i : ℕ) : ℚ :=
  log_lambda1.getD i 0 - mean_log_lambda log_lambda1 weights1

/-- `sum_weights_square_log_lambda_minus_mean1 =
(weights1*log_lambda_minus_mean1**2).sum()` (lines 377-378). -/
def sum_weights_square_log_lambda_minus_mean (log_lambda1 weights1 : List ℚ) :
    ℚ :=
  ((List.range log_lambda1.length).map (fun i =>
    weights1.getD i 0 * log_lambda_minus_mean log_lambda1 weights1 i ^ 2)).sum

/-- `eta2` read at flattened index `k = j + num_pixels2*model_bin`
(lines 407, 413-417): the bincount of `weights1[i]/sum_weights1` over the
surviving pairs. -/
def eta2 (cfg : Config) (ps : List DmatPair) (weights1 : List ℚ)
    (num_pixels2 : ℕ) (k : ℤ) : ℚ :=
  (ps.map (fun p =>
    if (p.j : ℤ) + (num_pixels2 : ℤ) * p.mbin cfg = k then
      weights1.getD p.i 0 / sum_weights weights1
    else 0)).sum

/-- `eta4` read at flattened index `k = j + num_pixels2*model_bin`
(lines 410, 418-423): the bincount of
`weights1[i]*log_lambda_minus_mean1[i]/sum_weights_square_log_lambda_minus_mean1`
over the surviving pairs. -/
def eta4 (cfg : Config) (ps : List DmatPair) (log_lambda1 weights1 : List ℚ)
    (num_pixels2 : ℕ) (k : ℤ) : ℚ :=
  (ps.map (fun p =>
    if (p.j : ℤ) + (num_pixels2 : ℤ) * p.mbin cfg = k then
      weights1.getD p.i 0 * log_lambda_minus_mean log_lambda1 weights1 p.i /
        sum_weights_square_log_lambda_minus_mean log_lambda1 weights1
    else 0)).sum

/-- `unique_model_bins = np.unique(model_bins)` (line 426), as the list of
distinct model bins of the surviving pairs. -/
def unique_model_bins (cfg : Config) (ps : List DmatPair) : List ℤ :=
  (ps.map (fun p => p.mbin cfg)).dedup

/-- The amount the final loop of `compute_dmat_forest_pairs`
(lines 427-440) adds to `dmat` at flattened index
`m = model_bin + num_model_bins_r_par*num_model_bins_r_trans*bin`: each
surviving pair adds its pair weight at its own (model bin, data bin) cell
(the kronecker-delta term) and subtracts
`weights12*(eta2[j + n2*umb] + eta4[j + n2*umb]*log_lambda_minus_mean1[i])`
at every populated model bin `umb` of its data bin. -/
def dmat_add (cfg : Config) (log_lambda1 weights1 : List ℚ)
    (num_pixels2 : ℕ) (ps : List DmatPair) (m : ℤ) : ℚ :=
  let M : ℤ := (cfg.num_model_bins_r_par : ℤ) * (cfg.num_model_bins_r_trans : ℤ)
  (ps.map (fun p =>
    (if p.mbin cfg + M * p.bin cfg = m then p.w12 else 0) -
    ((unique_model_bins cfg ps).map (fun umb =>
      if umb + M * p.bin cfg = m then
        p.w12 * (eta2 cfg ps weights1 num_pixels2 ((p.j : ℤ) +
            (num_pixels2 : ℤ) * umb) +
          eta4 cfg ps log_lambda1 weights1 num_pixels2 ((p.j : ℤ) +
            (num_pixels2 : ℤ) * umb) *
            log_lambda_minus_mean log_lambda1 weights1 p.i)
      else 0)).sum)).sum

/-- The six in-place accumulator arrays passed to
`compute_dmat_forest_pairs`. -/
structure DmatState where
  weights_dmat : ℕ → ℚ
  dmat : ℤ → ℚ
  r_par_eff : ℕ → ℚ
  r_trans_eff : ℕ → ℚ
  z_eff : ℕ → ℚ
  weight_eff : ℕ → ℚ

/-- The zero-initialised dmat accumulators (`compute_dmat` lines 256-262). -/
def dmat_zero : DmatState :=
  { weights_dmat := fun _ => 0, dmat := fun _ => 0, r_par_eff := fun _ => 0,
    r_trans_eff := fun _ => 0, z_eff := fun _ => 0, weight_eff := fun _ => 0 }

/-- `compute_dmat_forest_pairs` (`xcf.py` lines 301-440): bins the
surviving pairs of one forest-objects call into the six in-place
accumulators.  `r_par_eff`, `r_trans_eff`, `z_eff`, `weight_eff` receive
the model-grid bincounts of `weights12*r_par`, `weights12*r_trans`,
`weights12*z`, `weights12`; `weights_dmat` the data-grid bincount of
`weights12`; `dmat` the identity term minus the eta2/eta4 projection
terms. -/
def compute_dmat_forest_pairs (cfg : Config) (fns : RealFns)
    (log_lambda1 r_comov1 dist_m1 z1 weights1 r_comov2 dist_m2 z2 weights2
      ang : List ℚ) (s : DmatState) : DmatState :=
  let ps := compute_dmat_pairs cfg fns r_comov1 dist_m1 z1 weights1 r_comov2
    dist_m2 z2 weights2 ang
  let num_pixels2 := r_comov2.length
  { weights_dmat := fun b => s.weights_dmat b + drebin cfg ps b,
    dmat := fun m => s.dmat m + dmat_add cfg log_lambda1 weights1 num_pixels2
      ps m,
    r_par_eff := fun b => s.r_par_eff b +
      mrebin cfg ps (fun p => p.w12 * p.rp) b,
    r_trans_eff := fun b => s.r_trans_eff b +
      mrebin cfg ps (fun p => p.w12 * p.rt) b,
    z_eff := fun b => s.z_eff b + mrebin cfg ps (fun p => p.w12 * p.z) b,
    weight_eff := fun b => s.weight_eff b + mrebin cfg ps (fun p => p.w12) b }

/-- The full result of `compute_dmat`. -/
structure DmatResult where
  acc : DmatState
  num_pairs : ℕ
  num_pairs_used : ℕ

/-- The running state of the delta loop of `compute_dmat`. -/
def dmat_result_zero : DmatResult :=
  { acc := dmat_zero, num_pairs := 0, num_pairs_used := 0 }

/-- The retained neighbours (with their angles) of one delta in
`compute_dmat`: `w = np.random.rand(len(delta1.neighbours)) > reject`,
`neighbours = delta1.neighbours[w]` (lines 278, 283). -/
def dmat_kept (cfg : Config) (d : Delta) (draws : List ℚ) :
    List (Obj × ℚ) :=
  ((d.neighs.zip d.ang).zip draws).filterMap (fun x =>
    if cfg.reject < x.2 then some x.1 else none)

/-- One iteration of the delta loop of `compute_dmat` (`xcf.py`
lines 267-293).  `draws` is the vector of `np.random.rand` values for this
delta's neighbours; `w = draws > reject` retains a neighbour.  If no
neighbour is retained the delta is skipped (`continue`) before its
neighbour count is added to `num_pairs`; otherwise `num_pairs` grows by
the full neighbour count, `num_pairs_used` by the retained count, and the
retained neighbours (with their angles) are passed to
`compute_dmat_forest_pairs`. -/
def compute_dmat_step (cfg : Config) (fns : RealFns) (r : DmatResult)
    (d : Delta) (draws : List ℚ) : DmatResult :=
  let ns := d.neighs
  let kept := dmat_kept cfg d draws
  if kept.length = 0 then r
  else
    { acc := compute_dmat_forest_pairs cfg fns d.log_lambda d.r_comov d.dist_m
        d.z d.weights (kept.map (fun x => x.1.r_comov))
        (kept.map (fun x => x.1.dist_m)) (kept.map (fun x => x.1.z_qso))
        (kept.map (fun x => x.1.weights)) (kept.map (fun x => x.2)) r.acc,
      num_pairs := r.num_pairs + ns.length,
      num_pairs_used := r.num_pairs_used + kept.length }

/-- `compute_dmat` (`xcf.py` lines 235-299) over a flattened list of
deltas, each paired with its vector of random draws. -/
def compute_dmat (cfg : Config) (fns : RealFns)
    (ds : List (Delta × List ℚ)) : DmatResult :=
  ds.foldl (fun r dd => compute_dmat_step cfg fns r dd.1 dd.2)
    dmat_result_zero

/-- The per-delta entity mutation of `compute_dmat` (`xcf.py` lines
279-280, 293): a delta with at least one retained neighbour gets
`neighbours` set to `None`; a fully rejected delta is skipped before the
`setattr` and keeps its fields. -/
def compute_dmat_delta_update (cfg : Config) (d : Delta) (draws : List ℚ) :
    Delta :=
  if (draws.filter (fun r => cfg.reject < r)).length = 0 then d
  else { d with neighbours := none }

/-- Extra uninterpreted context of `compute_metal_dmat`: `10.**x`, the
cosmology distance conversions `cosmo.get_r_comov` / `cosmo.get_dist_m`,
the contaminant rest wavelength `constants.ABSORBER_IGM[abs_igm]`, and the
redshift-evolution weight
`z ↦ ((1+z)/(1+z_ref))**(alpha_abs[abs_igm]-1)`. -/
structure MetalCtx where
  cos : ℚ → ℚ
  sin : ℚ → ℚ
  pow10 : ℚ → ℚ
  get_r_comov : ℚ → ℚ
  get_dist_m : ℚ → ℚ
  z_evol : ℚ → ℚ
  lambda_abs : ℚ

/-- numpy boolean-mask selection `arr[mask]` for a mask of the same
length (entries of `l` at the `true` positions of `mask`). -/
def bool_mask {α : Type} (mask : List Bool) (l : List α) : List α :=
  ((l.zip mask).filter (fun x => x.2)).map (fun x => x.1)

/-- numpy boolean-array indexing `arr[mask]`: selection when the mask
length matches the array length, `none` (an `IndexError`) otherwise. -/
def np_bool_index {α : Type} (mask : List Bool) (l : List α) :
    Option (List α) :=
  if mask.length = l.length then some (bool_mask mask l) else none

/-- `z1_abs1 = 10**delta1.log_lambda/constants.ABSORBER_IGM[abs_igm] - 1`
(`xcf.py` line 491). -/
def metal_z1_abs (ctx : MetalCtx) (d : Delta) : List ℚ :=
  d.log_lambda.map (fun ll => ctx.pow10 ll / ctx.lambda_abs - 1)

/-- The random-retention mask `w = np.random.rand(len(delta1.neighbours)) >
reject` of `compute_metal_dmat` (line 484). -/
def metal_rand_mask (cfg : Config) (draws : List ℚ) : List Bool :=
  draws.map (fun r => decide (cfg.reject < r))

/-- The pixel mask `w = z1_abs1 < delta1.z_qso` of `compute_metal_dmat`
(line 497), which overwrites the random-retention mask before the
neighbour loop `for obj2 in np.array(delta1.neighbours)[w]` (line 507)
selects the neighbours to process. -/
def metal_pix_mask (ctx : MetalCtx) (d : Delta) : List Bool :=
  (metal_z1_abs ctx d).map (fun zz => decide (zz < d.z_qso))

/-- Per-pixel quantities of one (filtered forest, neighbour object)
iteration of `compute_metal_dmat` (lines 507-564): observed separations
`r_par`/`r_trans` from the original geometry, shifted separations
`r_par_abs`/`r_trans_abs` from the contaminant geometry, the pair weight,
the shifted redshift and its evolution weight. -/
structure MetalPix where
  rp : ℚ
  rt : ℚ
  rp_abs : ℚ
  rt_abs : ℚ
  w12 : ℚ
  z_abs : ℚ
  zwe : ℚ

/-- The observed-window mask of a metal pixel (line 520-521). -/
def MetalPix.win (cfg : Config) (p : MetalPix) : Prop :=
  cfg.r_par_min < p.rp ∧ p.rp < cfg.r_par_max ∧ p.rt < cfg.r_trans_max

instance (cfg : Config) (p : MetalPix) : Decidable (p.win cfg) :=
  inferInstanceAs (Decidable
    (cfg.r_par_min < p.rp ∧ p.rp < cfg.r_par_max ∧ p.rt < cfg.r_trans_max))

/-- The combined mask after `w &= ((r_par_abs > r_par_min) & (r_par_abs <
r_par_max) & (r_trans_abs < r_trans_max))` (lines 542-543). -/
def MetalPix.winBoth (cfg : Config) (p : MetalPix) : Prop :=
  p.win cfg ∧ cfg.r_par_min < p.rp_abs ∧ p.rp_abs < cfg.r_par_max ∧
    p.rt_abs < cfg.r_trans_max

instance (cfg : Config) (p : MetalPix) : Decidable (p.winBoth cfg) :=
  inferInstanceAs (Decidable
    (p.win cfg ∧ cfg.r_par_min < p.rp_abs ∧ p.rp_abs < cfg.r_par_max ∧
      p.rt_abs < cfg.r_trans_max))

/-- The per-pixel data of one neighbour iteration of `compute_metal_dmat`,
built from the pixel arrays already filtered by the pixel mask
(`r_comov1`, `dist_m1`, `weights1`, `z1_abs1`, `r_comov1_abs1`,
`dist_m1_abs1` of lines 498-503) and the neighbour `obj2` with its angle. -/
def metal_pixels (ctx : MetalCtx) (rc1 dm1 w1 z1a rca1 dma1 : List ℚ)
    (obj2 : Obj) (ang2 : ℚ) : List MetalPix :=
  (List.range rc1.length).map (fun i =>
    { rp := (rc1.getD i 0 - obj2.r_comov) * ctx.cos (ang2 / 2),
      rt := (dm1.getD i 0 + obj2.dist_m) * ctx.sin (ang2 / 2),
      rp_abs := (rca1.getD i 0 - obj2.r_comov) * ctx.cos (ang2 / 2),
      rt_abs := (dma1.getD i 0 + obj2.dist_m) * ctx.sin (ang2 / 2),
      w12 := w1.getD i 0 * obj2.weights,
      z_abs := z1a.getD i 0,
      zwe := ctx.z_evol (z1a.getD i 0) })

/-- The accumulator updates of one neighbour iteration of
`compute_metal_dmat` (lines 507-564): `weights_dmat` receives the
data-grid bincount of `weights12` under the observed window; `dmat`,
`r_par_eff`, `r_trans_eff`, `z_eff`, `weight_eff` receive the
evolution-weighted bincounts under the combined window, `dmat` at
`model_bins + num_model_bins_r_par*num_model_bins_r_trans*bins` using the
shifted geometry for the model grid. -/
def metal_obj_update (cfg : Config) (pxs : List MetalPix) (z2 : ℚ)
    (s : DmatState) : DmatState :=
  let M : ℤ := (cfg.num_model_bins_r_par : ℤ) * (cfg.num_model_bins_r_trans : ℤ)
  { weights_dmat := fun b => s.weights_dmat b + (pxs.map (fun p =>
      if p.win cfg ∧ bin_index cfg p.rp p.rt = (b : ℤ) then p.w12
      else 0)).sum,
    dmat := fun m => s.dmat m + (pxs.map (fun p =>
      if p.winBoth cfg ∧
          model_bin_index cfg p.rp_abs p.rt_abs + M * bin_index cfg p.rp p.rt
            = m then
        p.w12 * p.zwe
      else 0)).sum,
    r_par_eff := fun b => s.r_par_eff b + (pxs.map (fun p =>
      if p.winBoth cfg ∧ model_bin_index cfg p.rp_abs p.rt_abs = (b : ℤ) then
        p.rp_abs * p.w12 * p.zwe
      else 0)).sum,
    r_trans_eff := fun b => s.r_trans_eff b + (pxs.map (fun p =>
      if p.winBoth cfg ∧ model_bin_index cfg p.rp_abs p.rt_abs = (b : ℤ) then
        p.rt_abs * p.w12 * p.zwe
      else 0)).sum,
    z_eff := fun b => s.z_eff b + (pxs.map (fun p =>
      if p.winBoth cfg ∧ model_bin_index cfg p.rp_abs p.rt_abs = (b : ℤ) then
        (p.z_abs + z2) / 2 * p.w12 * p.zwe
      else 0)).sum,
    weight_eff := fun b => s.weight_eff b + (pxs.map (fun p =>
      if p.winBoth cfg ∧ model_bin_index cfg p.rp_abs p.rt_abs = (b : ℤ) then
        p.w12 * p.zwe
      else 0)).sum }

/-- One iteration of the delta loop of `compute_metal_dmat`
(lines 476-565), faithful to the source's reuse of the variable `w`: the
random-retention mask feeds only `num_pairs_used`, and the neighbours
actually processed are `np.array(delta1.neighbours)[w]` with `w` the
pixel mask `z1_abs1 < delta1.z_qso` (an `IndexError`, modelled as `none`,
when the two lengths differ). -/
def compute_metal_dmat_step (cfg : Config) (ctx : MetalCtx) (r : DmatResult)
    (d : Delta) (draws : List ℚ) : Option DmatResult :=
  let ns := d.neighs
  let rand_kept := (metal_rand_mask cfg draws).count true
  let num_pairs := r.num_pairs + ns.length
  let num_pairs_used := r.num_pairs_used + rand_kept
  let z1a := metal_z1_abs ctx d
  let wpix := metal_pix_mask ctx d
  let rc1 := bool_mask wpix d.r_comov
  let dm1 := bool_mask wpix d.dist_m
  let w1 := bool_mask wpix d.weights
  let z1af := bool_mask wpix z1a
  let rca1 := bool_mask wpix (z1a.map ctx.get_r_comov)
  let dma1 := bool_mask wpix (z1a.map ctx.get_dist_m)
  if rc1.length = 0 then
    some { r with num_pairs := num_pairs, num_pairs_used := num_pairs_used }
  else
    match np_bool_index wpix (ns.zip d.ang) with
    | none => none
    | some sel =>
      some { acc := sel.foldl (fun s oa =>
               metal_obj_update cfg
                 (metal_pixels ctx rc1 dm1 w1 z1af rca1 dma1 oa.1 oa.2)
                 oa.1.z_qso s) r.acc,
             num_pairs := num_pairs, num_pairs_used := num_pairs_used }

/-- `compute_metal_dmat` (`xcf.py` lines 442-571) over a flattened list of
deltas with their random draws; `none` models the run aborting on an
`IndexError` from the shadowed mask. -/
def compute_metal_dmat (cfg : Config) (ctx : MetalCtx)
    (ds : List (Delta × List ℚ)) : Option DmatResult :=
  ds.foldlM (fun r dd => compute_metal_dmat_step cfg ctx r dd.1 dd.2)
    dmat_result_zero

/-- The per-delta entity mutation of `compute_metal_dmat` (lines 504-505,
565): `neighbours` is set to `None` unless the pixel filter left no pixel
(then the `continue` skips the `setattr`). -/
def compute_metal_dmat_delta_update (ctx : MetalCtx) (d : Delta) : Delta :=
  if (bool_mask (metal_pix_mask ctx d) d.r_comov).length = 0 then d
  else { d with neighbours := none }

/-- The extra module globals of the Wick engine (`xcf.py` lines 573-582)
together with its uninterpreted real functions: the redshift-evolution
weights `zw_del : z ↦ ((1+z)/(1+z_ref))**(z_evol_del-1)` and
`zw_obj : z ↦ ((1+z)/(1+z_ref))**(z_evol_obj-1)`, `np.cos`, `np.sin`, the
optional flattened 3-D covariance model `cfWick` and its grid geometry,
and the diagram budget `max_diagram`. -/
structure WickCtx where
  cos : ℚ → ℚ
  sin : ℚ → ℚ
  zw_del : ℚ → ℚ
  zw_obj : ℚ → ℚ
  max_diagram : ℤ
  cfWick : Option (ℤ → ℚ)
  cfWick_np : ℕ
  cfWick_nt : ℕ
  cfWick_rp_min : ℚ
  cfWick_rp_max : ℚ
  cfWick_rt_max : ℚ

/-- The pair-selection window of `fill_wickT1234` (`xcf.py` line 708) and
of the pair blocks of `fill_wickT56` (lines 791, 809). -/
def wick_pair_mask (cfg : Config) (rp rt : ℚ) : Prop :=
  cfg.r_par_min < rp ∧ rp < cfg.r_par_max ∧ rt < cfg.r_trans_max

instance (cfg : Config) (rp rt : ℚ) : Decidable (wick_pair_mask cfg rp rt) :=
  inferInstanceAs (Decidable
    (cfg.r_par_min < rp ∧ rp < cfg.r_par_max ∧ rt < cfg.r_trans_max))

/-- Pointwise increment of a 1-D accumulator array at one cell. -/
def bump (f : ℤ → ℚ) (a : ℤ) (v : ℚ) : ℤ → ℚ :=
  fun i => if i = a then f i + v else f i

/-- Pointwise increment of an integer counter array at one cell. -/
def bumpz (f : ℤ → ℤ) (a : ℤ) : ℤ → ℤ :=
  fun i => if i = a then f i + 1 else f i

/-- In-place `M[a,b] += v` on a matrix. -/
def addAt (m : ℤ → ℤ → ℚ) (a b : ℤ) (v : ℚ) : ℤ → ℤ → ℚ :=
  fun i j => if i = a ∧ j = b then m i j + v else m i j

/-- One surviving (forest pixel, object) pair of `fill_wickT1234`
(lines 695-715): its flattened bin `ba`, pair weight, forest-pixel weight
`we1`, and the pixel / object indices. -/
structure WickPair where
  ba : ℤ
  w : ℚ
  we1 : ℚ
  i : ℕ
  q : ℕ

/-- The surviving pairs of `fill_wickT1234`, flattened row-major:
`r_par = (r_comov1[:,None]-r_comov2)*cos(ang/2)`,
`r_trans = (r_comov1[:,None]+r_comov2)*sin(ang/2)` (note: both from
`r_comov`), the window of line 708, bins of lines 704-706. -/
def fill_wickT1234_pairs (cfg : Config) (wctx : WickCtx)
    (ang r_comov1 r_comov2 weights1 weights2 : List ℚ) : List WickPair :=
  (pairList r_comov1.length r_comov2.length).filterMap (fun iq =>
    let i := iq.1
    let q := iq.2
    let rp := (r_comov1.getD i 0 - r_comov2.getD q 0) *
      wctx.cos (ang.getD q 0 / 2)
    let rt := (r_comov1.getD i 0 + r_comov2.getD q 0) *
      wctx.sin (ang.getD q 0 / 2)
    if wick_pair_mask cfg rp rt then
      some { ba := bin_index cfg rp rt,
             w := weights1.getD i 0 * weights2.getD q 0,
             we1 := weights1.getD i 0, i := i, q := q }
    else none)

/-- The running state of `wickT`. -/
structure WickState where
  wAll : ℤ → ℚ
  num_pairs_wick : ℤ → ℤ
  num_pairs : ℕ
  num_pairs_used : ℕ
  T1 : ℤ → ℤ → ℚ
  T2 : ℤ → ℤ → ℚ
  T3 : ℤ → ℤ → ℚ
  T4 : ℤ → ℤ → ℚ
  T5 : ℤ → ℤ → ℚ
  T6 : ℤ → ℤ → ℚ

/-- The zero-initialised Wick state (`wickT` lines 595-604). -/
def wick_zero : WickState :=
  { wAll := fun _ => 0, num_pairs_wick := fun _ => 0, num_pairs := 0,
    num_pairs_used := 0, T1 := fun _ _ => 0, T2 := fun _ _ => 0,
    T3 := fun _ _ => 0, T4 := fun _ _ => 0, T5 := fun _ _ => 0,
    T6 := fun _ _ => 0 }

/-- The inner loop `for k2 in range(k1+1, ba.size)` of `fill_wickT1234`
(lines 725-740): for each later pair, add the appropriate covariance
symmetrically into T2 (same object), T3 (same pixel) or T4 (otherwise). -/
def fill_wickT1234_inner (c1d_1 : ℕ → ℕ → ℚ) (zw1f zw2f : ℕ → ℚ)
    (p : WickPair) : List WickPair → WickState → WickState
  | [], s => s
  | p2 :: rest, s =>
    let s' :=
      if p.q = p2.q then
        let wcorr := c1d_1 p.i p2.i * zw2f p.q ^ 2
        { s with T2 := addAt (addAt s.T2 p.ba p2.ba wcorr) p2.ba p.ba wcorr }
      else if p.i = p2.i then
        let wcorr := p.w * p2.w / p.we1 * zw1f p.i
        { s with T3 := addAt (addAt s.T3 p.ba p2.ba wcorr) p2.ba p.ba wcorr }
      else
        let wcorr := c1d_1 p.i p2.i * zw2f p.q * zw2f p2.q
        { s with T4 := addAt (addAt s.T4 p.ba p2.ba wcorr) p2.ba p.ba wcorr }
    fill_wickT1234_inner c1d_1 zw1f zw2f p rest s'

/-- The outer loop `for k1 in range(ba.size)` of `fill_wickT1234`
(lines 717-740): accumulate `wAll`, the pair counter and the diagonal T1
term for the pair, then run the inner loop over the later pairs. -/
def fill_wickT1234_outer (c1d_1 : ℕ → ℕ → ℚ) (zw1f zw2f : ℕ → ℚ) :
    List WickPair → WickState → WickState
  | [], s => s
  | p :: rest, s =>
    let s1 := { s with
      wAll := bump s.wAll p.ba p.w,
      num_pairs_wick := bumpz s.num_pairs_wick p.ba,
      T1 := addAt s.T1 p.ba p.ba (p.w ^ 2 / p.we1 * zw1f p.i) }
    fill_wickT1234_outer c1d_1 zw1f zw2f rest
      (fill_wickT1234_inner c1d_1 zw1f zw2f p rest s1)

/-- `fill_wickT1234` (`xcf.py` lines 669-742): bins the surviving pairs of
one forest-objects call and accumulates the T1-T4 diagram contributions.
`zw1 = ((1+z1)/(1+z_ref))**(z_evol_del-1)` and
`zw2 = ((1+z2)/(1+z_ref))**(z_evol_obj-1)` are read through the
uninterpreted evolution weights. -/
def fill_wickT1234 (cfg : Config) (wctx : WickCtx)
    (ang r_comov1 r_comov2 z1 z2 weights1 weights2 : List ℚ)
    (c1d_1 : ℕ → ℕ → ℚ) (s : WickState) : WickState :=
  fill_wickT1234_outer c1d_1 (fun i => wctx.zw_del (z1.getD i 0))
    (fun q => wctx.zw_obj (z2.getD q 0))
    (fill_wickT1234_pairs cfg wctx ang r_comov1 r_comov2 weights1 weights2) s

/-- One surviving pair of either pair block of `fill_wickT56`. -/
structure Wick56Pair where
  ba : ℤ
  pix : ℕ
  thing : ℤ
  w : ℚ

/-- The surviving pairs of a forest-object block of `fill_wickT56`
(lines 784-800 and 802-818). -/
def fill_wickT56_block (cfg : Config) (wctx : WickCtx)
    (ang rc ro wc wo : List ℚ) (things : List ℤ) : List Wick56Pair :=
  (pairList rc.length ro.length).filterMap (fun ik =>
    let i := ik.1
    let k := ik.2
    let rp := (rc.getD i 0 - ro.getD k 0) * wctx.cos (ang.getD k 0 / 2)
    let rt := (rc.getD i 0 + ro.getD k 0) * wctx.sin (ang.getD k 0 / 2)
    if wick_pair_mask cfg rp rt then
      some { ba := bin_index cfg rp rt, pix := i, thing := things.getD k 0,
             w := wc.getD i 0 * wo.getD k 0 }
    else none)

/-- The forest1-forest3 correlation lookup `cf13` of `fill_wickT56`
(lines 771-782): `r_par = |r_comov1 - r3[:,None]|*cos(ang13/2)`,
`r_trans = (r_comov1 + r3[:,None])*sin(ang13/2)`, windowed by the `cfWick`
grid (floor for the parallel bin, `astype(int)` for the transverse bin),
zero outside the window. -/
def cf13 (wctx : WickCtx) (cfw : ℤ → ℚ) (ang13 : ℚ) (r_comov1 r3 : List ℚ)
    (i3 i1 : ℕ) : ℚ :=
  let rp := |r_comov1.getD i1 0 - r3.getD i3 0| * wctx.cos (ang13 / 2)
  let rt := (r_comov1.getD i1 0 + r3.getD i3 0) * wctx.sin (ang13 / 2)
  if rp < wctx.cfWick_rp_max ∧ rt < wctx.cfWick_rt_max ∧
      wctx.cfWick_rp_min ≤ rp then
    cfw (np_astype_int (rt / wctx.cfWick_rt_max * (wctx.cfWick_nt : ℚ)) +
      (wctx.cfWick_nt : ℤ) *
        ⌊(rp - wctx.cfWick_rp_min) / (wctx.cfWick_rp_max - wctx.cfWick_rp_min) *
          (wctx.cfWick_np : ℚ)⌋)
  else 0

/-- Whether the forest1-forest3 window of `fill_wickT56` (line 775) keeps
at least one pixel pair (`if w.sum()==0: return`). -/
def cf13_any (wctx : WickCtx) (ang13 : ℚ) (r_comov1 r3 : List ℚ) : Prop :=
  ∃ ik ∈ pairList r3.length r_comov1.length,
    |r_comov1.getD ik.2 0 - r3.getD ik.1 0| * wctx.cos (ang13 / 2) <
        wctx.cfWick_rp_max ∧
      (r_comov1.getD ik.2 0 + r3.getD ik.1 0) * wctx.sin (ang13 / 2) <
        wctx.cfWick_rt_max ∧
      wctx.cfWick_rp_min ≤
        |r_comov1.getD ik.2 0 - r3.getD ik.1 0| * wctx.cos (ang13 / 2)

instance (wctx : WickCtx) (ang13 : ℚ) (r_comov1 r3 : List ℚ) :
    Decidable (cf13_any wctx ang13 r_comov1 r3) :=
  inferInstanceAs (Decidable (∃ ik ∈ pairList r3.length r_comov1.length,
    |r_comov1.getD ik.2 0 - r3.getD ik.1 0| * wctx.cos (ang13 / 2) <
        wctx.cfWick_rp_max ∧
      (r_comov1.getD ik.2 0 + r3.getD ik.1 0) * wctx.sin (ang13 / 2) <
        wctx.cfWick_rt_max ∧
      wctx.cfWick_rp_min ≤
        |r_comov1.getD ik.2 0 - r3.getD ik.1 0| * wctx.cos (ang13 / 2)))

/-- The T5 double loop of `fill_wickT56` (lines 821-833): pairs of the two
blocks sharing the same object identity contribute
`cf13[pix2,pix1]*weights1*weights2` symmetrically to T5. -/
def fill_wickT56_T5 (cf : ℕ → ℕ → ℚ) (s12 s34 : List Wick56Pair)
    (s : WickState) : WickState :=
  s12.foldl (fun st p1 =>
    (s34.filter (fun p2 => p2.thing = p1.thing)).foldl (fun st2 p2 =>
      let wcorr := cf p2.pix p1.pix * p1.w * p2.w
      let t5 := addAt (addAt st2.T5 p1.ba p2.ba wcorr) p2.ba p1.ba wcorr
      { st2 with T5 := t5 }) st) s

/-- The T6 double loop of `fill_wickT56` (lines 835-849): skipped entirely
when `max_diagram == 5`; otherwise pairs with distinct object identities
contribute symmetrically to T6. -/
def fill_wickT56_T6 (wctx : WickCtx) (cf : ℕ → ℕ → ℚ)
    (s12 s34 : List Wick56Pair) (s : WickState) : WickState :=
  if wctx.max_diagram = 5 then s
  else
    s12.foldl (fun st p1 =>
      s34.foldl (fun st2 p2 =>
        if p2.thing = p1.thing then st2
        else
          let wcorr := cf p2.pix p1.pix * p1.w * p2.w
          let t6 := addAt (addAt st2.T6 p1.ba p2.ba wcorr) p2.ba p1.ba wcorr
          { st2 with T6 := t6 }) st) s

/-- `fill_wickT56` (`xcf.py` lines 743-851): with the three early returns
(empty forest1-forest3 window, empty forest1-object2 block, empty
forest3-object4 block), then the symmetric T5 and T6 accumulations. -/
def fill_wickT56 (cfg : Config) (wctx : WickCtx) (cfw : ℤ → ℚ)
    (ang12 ang34 : List ℚ) (ang13 : ℚ)
    (r_comov1 r_comov2 r3 r4 weights1 weights2 w3 w4 : List ℚ)
    (thingid2 thingid4 : List ℤ) (s : WickState) : WickState :=
  if cf13_any wctx ang13 r_comov1 r3 then
    let s12 := fill_wickT56_block cfg wctx ang12 r_comov1 r_comov2 weights1
      weights2 thingid2
    let s34 := fill_wickT56_block cfg wctx ang34 r3 r4 w3 w4 thingid4
    if s12.length = 0 then s
    else if s34.length = 0 then s
    else
      let cf := cf13 wctx cfw ang13 r_comov1 r3
      fill_wickT56_T6 wctx cf s12 s34 (fill_wickT56_T5 cf s12 s34 s)
  else s

/-- The prepared argument tuple of one `fill_wickT56` call of the
higher-order stage of `wickT` (lines 636-666): the per-`d3` arrays, after
the `max_diagram==5` identity filtering, are supplied as inputs since the
forest-neighbour relation (`dneighs`) and the `in1d` filtering are
computed outside the fill routine. -/
structure Wick56Args where
  ang12 : List ℚ
  ang34 : List ℚ
  ang13 : ℚ
  r_comov1 : List ℚ
  r_comov2 : List ℚ
  r3 : List ℚ
  r4 : List ℚ
  weights1 : List ℚ
  weights2 : List ℚ
  w3 : List ℚ
  w4 : List ℚ
  thingid2 : List ℤ
  thingid4 : List ℤ

/-- The data one retained delta feeds to the Wick engine: the
`fill_wickT1234` arrays of lines 620-632 (with the per-forest 1-D pixel
covariance `c1d_1` of line 622, whose `sqrt` factors make it an
uninterpreted input), plus the prepared higher-order call tuples. -/
structure WickItem where
  ang12 : List ℚ
  r_comov1 : List ℚ
  r_comov2 : List ℚ
  z1 : List ℚ
  z2 : List ℚ
  weights1 : List ℚ
  weights2 : List ℚ
  c1d_1 : ℕ → ℕ → ℚ
  hot : List Wick56Args

/-- The body of the retained-delta loop of `wickT` (lines 614-666):
skip a delta with no neighbours; run `fill_wickT1234`; then run the
higher-order stage only when a 3-D covariance model is present and
`max_diagram > 4` (line 635: `if (cfWick is None) or (max_diagram<=4):
continue`). -/
def wickT_item (cfg : Config) (wctx : WickCtx) (s : WickState)
    (it : WickItem) : WickState :=
  if it.r_comov2.length = 0 then s
  else
    let s1 := fill_wickT1234 cfg wctx it.ang12 it.r_comov1 it.r_comov2 it.z1
      it.z2 it.weights1 it.weights2 it.c1d_1 s
    match wctx.cfWick with
    | none => s1
    | some cfw =>
      if wctx.max_diagram ≤ 4 then s1
      else
        it.hot.foldl (fun st a =>
          fill_wickT56 cfg wctx cfw a.ang12 a.ang34 a.ang13 a.r_comov1
            a.r_comov2 a.r3 a.r4 a.weights1 a.weights2 a.w3 a.w4 a.thingid2
            a.thingid4 st) s1

/-- One healpix group of `wickT` (lines 606-613): its deltas' Wick items
and the per-delta random draws `r = sp.random.rand(len(data[healpix]))`. -/
structure WickGroup where
  items : List WickItem
  draws : List ℚ

/-- One healpix iteration of `wickT`: `num_pairs` grows by the full delta
count of the healpix, `num_pairs_used` by the retained count
(`w = r > reject`), and only the retained deltas are processed. -/
def wickT_group (cfg : Config) (wctx : WickCtx) (s : WickState)
    (g : WickGroup) : WickState :=
  let kept := (g.items.zip g.draws).filterMap (fun x =>
    if cfg.reject < x.2 then some x.1 else none)
  let s0 := { s with num_pairs := s.num_pairs + g.items.length,
                     num_pairs_used := s.num_pairs_used + kept.length }
  kept.foldl (wickT_item cfg wctx) s0

/-- `wickT` (`xcf.py` lines 584-668) over its healpix groups. -/
def wickT (cfg : Config) (wctx : WickCtx) (gs : List WickGroup) : WickState :=
  gs.foldl (wickT_group cfg wctx) wick_zero

/-- The retained-delta loop with the higher-order (T5/T6) stage removed:
the run `wickT` degenerates to when line 635 always skips. -/
def wickT1234only_item (cfg : Config) (wctx : WickCtx) (s : WickState)
    (it : WickItem) : WickState :=
  if it.r_comov2.length = 0 then s
  else
    fill_wickT1234 cfg wctx it.ang12 it.r_comov1 it.r_comov2 it.z1 it.z2
      it.weights1 it.weights2 it.c1d_1 s

/-- `wickT` with the higher-order stage removed (reference pipeline for
the skip law of line 635). -/
def wickT1234only (cfg : Config) (wctx : WickCtx) (gs : List WickGroup) :
    WickState :=
  gs.foldl (fun s g =>
    let kept := (g.items.zip g.draws).filterMap (fun x =>
      if cfg.reject < x.2 then some x.1 else none)
    let s0 := { s with num_pairs := s.num_pairs + g.items.length,
                       num_pairs_used := s.num_pairs_used + kept.length }
    kept.foldl (wickT1234only_item cfg wctx) s0) wick_zero

/-- The observable attribute state of a delta entity, each field `none`
when the attribute has been set to Python `None`.  Used to express the
per-pass entity mutations. -/
structure DeltaFields where
  thingid : Option ℤ
  z_qso : Option ℚ
  z : Option (List ℚ)
  r_comov : Option (List ℚ)
  dist_m : Option (List ℚ)
  log_lambda : Option (List ℚ)
  weights : Option (List ℚ)
  delta : Option (List ℚ)
  neighbours : Option (Option (List Obj))
  ang : Option (List ℚ)

/-- The attribute state of an intact delta. -/
def Delta.fields (d : Delta) : DeltaFields :=
  { thingid := some d.thingid, z_qso := some d.z_qso, z := some d.z,
    r_comov := some d.r_comov, dist_m := some d.dist_m,
    log_lambda := some d.log_lambda, weights := some d.weights,
    delta := some d.delta, neighbours := some d.neighbours,
    ang := some d.ang }

/-- `for el in list(d.__dict__.keys()): setattr(d, el, None)`
(`xcf.py` lines 890-891): every attribute of the delta is set to `None`. -/
def xcf1d_clear_fields (_f : DeltaFields) : DeltaFields :=
  { thingid := none, z_qso := none, z := none, r_comov := none,
    dist_m := none, log_lambda := none, weights := none, delta := none,
    neighbours := none, ang := none }

/-- The per-delta entity mutation of `xcf1d` (lines 872-891): a delta with
no same-`thingid` object in its healpix is skipped (`continue`) untouched;
a processed delta has every attribute set to `None`.  The call `fast_xcf`
on line 882 is an undefined name in the module; modelled from the spec
(§4.6: same reduction pattern as the pair-binning engine) as completing
normally, so that the clearing loop is reached. -/
def xcf1d_delta_fields_update (objsHere : List Obj) (d : Delta) :
    DeltaFields :=
  if ((objsHere.filter (fun q => q.thingid = d.thingid)).length = 0) then
    d.fields
  else xcf1d_clear_fields d.fields

/-- The per-delta entity mutation of `wickT`: the function contains no
`setattr` at all, so every delta keeps all its fields. -/
def wickT_delta_update (d : Delta) : Delta := d

/-! ### Shared helper lemmas -/

/-- `getD` with default `0` on a list of nonnegative rationals is
nonnegative. -/
theorem getD_nonneg {l : List ℚ} (h : ∀ x ∈ l, 0 ≤ x) (i : ℕ) :
    0 ≤ l.getD i 0 := by
  induction l generalizing i with
  | nil => simp [List.getD]
  | cons a tl ih =>
    cases i with
    | zero => exact h a (by simp)
    | succ k =>
      simpa [List.getD] using ih (fun x hx => h x (by simp [hx])) k

/-- A member of a list via `getD` when the index is in range. -/
theorem getD_mem {α : Type} {l : List α} {i : ℕ} (h : i < l.length)
    (d : α) : l.getD i d ∈ l := by
  induction l generalizing i with
  | nil => simp at h
  | cons a tl ih =>
    cases i with
    | zero => simp [List.getD]
    | succ k =>
      have := ih (by simpa using h)
      simp only [List.getD] at this ⊢
      simpa using Or.inr this

/-- Every element of a nonnegative list with zero sum is zero. -/
theorem sum_zero_of_nonneg {l : List ℚ} (h : ∀ x ∈ l, 0 ≤ x)
    (hs : l.sum = 0) : ∀ x ∈ l, x = 0 := by
  induction l with
  | nil => simp
  | cons a tl ih =>
    have hta : 0 ≤ a := h a (by simp)
    have htl : 0 ≤ tl.sum := List.sum_nonneg (fun x hx => h x (by simp [hx]))
    have hsum : a + tl.sum = 0 := by simpa using hs
    have ha0 : a = 0 := by linarith
    have hts : tl.sum = 0 := by linarith
    intro x hx
    rcases List.mem_cons.mp hx with rfl | hx
    · exact ha0
    · exact ih (fun y hy => h y (by simp [hy])) hts x hx

/-- A sum over `Finset.range N` of an integer-bin indicator hits exactly
once when the bin lies in `[0, N)`. -/
theorem sum_range_indicator (N : ℕ) (k : ℤ) (v : ℚ) (h0 : 0 ≤ k)
    (h1 : k < N) :
    ((Finset.range N).sum fun b => if k = (b : ℤ) then v else 0) = v := by
  rw [Finset.sum_eq_single k.toNat]
  · simp [Int.toNat_of_nonneg h0]
  · intro b _ hne
    have : k ≠ (b : ℤ) := by omega
    simp [this]
  · intro hk
    exfalso
    exact hk (Finset.mem_range.mpr (by omega))

/-- Double-counting: summing a per-bin bincount over all bins of the grid
recovers the plain sum over the pairs, provided every pair's bin is in
range. -/
theorem sum_range_bincount {α : Type} (ps : List α) (binf : α → ℤ)
    (f : α → ℚ) (N : ℕ) (h : ∀ p ∈ ps, 0 ≤ binf p ∧ binf p < N) :
    ((Finset.range N).sum fun b =>
      (ps.map fun p => if binf p = (b : ℤ) then f p else 0).sum) =
    (ps.map f).sum := by
  induction ps with
  | nil => simp
  | cons p tl ih =>
    have hp := h p (by simp)
    simp only [List.map_cons, List.sum_cons, Finset.sum_add_distrib]
    rw [sum_range_indicator N (binf p) (f p) hp.1 hp.2,
      ih (fun q hq => h q (by simp [hq]))]

/-- Truncation toward zero agrees with the floor on nonnegative values. -/
theorem np_astype_int_of_nonneg {q : ℚ} (h : 0 ≤ q) :
    np_astype_int q = ⌊q⌋ := by
  simp [np_astype_int, h]

/-- The parallel data bin of a value strictly inside the window: it equals
the floor of the claim's formula and lies in `[0, num_bins_r_par)`. -/
theorem bin_r_par_range (cfg : Config) (rp : ℚ)
    (hnp : 0 < cfg.num_bins_r_par) (hlt : cfg.r_par_min < cfg.r_par_max)
    (h1 : cfg.r_par_min < rp) (h2 : rp < cfg.r_par_max) :
    bin_r_par cfg rp =
      ⌊(rp - cfg.r_par_min) / (cfg.r_par_max - cfg.r_par_min) *
        (cfg.num_bins_r_par : ℚ)⌋ ∧
    0 ≤ bin_r_par cfg rp ∧ bin_r_par cfg rp < cfg.num_bins_r_par := by
  have hden : (0 : ℚ) < cfg.r_par_max - cfg.r_par_min := by linarith
  have hnum : (0 : ℚ) < rp - cfg.r_par_min := by linarith
  have hnpq : (0 : ℚ) < (cfg.num_bins_r_par : ℚ) := by
    exact_mod_cast hnp
  have hx0 : (0 : ℚ) ≤ (rp - cfg.r_par_min) / (cfg.r_par_max - cfg.r_par_min) *
      (cfg.num_bins_r_par : ℚ) :=
    le_of_lt (mul_pos (div_pos hnum hden) hnpq)
  have hx1 : (rp - cfg.r_par_min) / (cfg.r_par_max - cfg.r_par_min) *
      (cfg.num_bins_r_par : ℚ) < (cfg.num_bins_r_par : ℚ) := by
    have hq1 : (rp - cfg.r_par_min) / (cfg.r_par_max - cfg.r_par_min) < 1 :=
      (div_lt_one hden).mpr (by linarith)
    calc (rp - cfg.r_par_min) / (cfg.r_par_max - cfg.r_par_min) *
        (cfg.num_bins_r_par : ℚ)
        < 1 * (cfg.num_bins_r_par : ℚ) := by
          exact mul_lt_mul_of_pos_right hq1 hnpq
      _ = (cfg.num_bins_r_par : ℚ) := one_mul _
  have heq : bin_r_par cfg rp =
      ⌊(rp - cfg.r_par_min) / (cfg.r_par_max - cfg.r_par_min) *
        (cfg.num_bins_r_par : ℚ)⌋ := by
    unfold bin_r_par
    exact np_astype_int_of_nonneg hx0
  refine ⟨heq, ?_, ?_⟩
  · rw [heq]
    exact Int.le_floor.mpr (by exact_mod_cast hx0)
  · rw [heq]
    exact_mod_cast Int.floor_lt.mpr (by exact_mod_cast hx1)

/-- A parallel separation in the last cell of the window lands in the last
parallel bin. -/
theorem bin_r_par_last (cfg : Config) (rp : ℚ)
    (hnp : 0 < cfg.num_bins_r_par) (hlt : cfg.r_par_min < cfg.r_par_max)
    (h1 : cfg.r_par_min < rp) (h2 : rp < cfg.r_par_max)
    (hlast : cfg.r_par_max - (cfg.r_par_max - cfg.r_par_min) /
      (cfg.num_bins_r_par : ℚ) < rp) :
    bin_r_par cfg rp = (cfg.num_bins_r_par : ℤ) - 1 := by
  have hden : (0 : ℚ) < cfg.r_par_max - cfg.r_par_min := by linarith
  have hnpq : (0 : ℚ) < (cfg.num_bins_r_par : ℚ) := by exact_mod_cast hnp
  obtain ⟨heq, -, -⟩ := bin_r_par_range cfg rp hnp hlt h1 h2
  rw [heq]
  have hx1 : (rp - cfg.r_par_min) / (cfg.r_par_max - cfg.r_par_min) *
      (cfg.num_bins_r_par : ℚ) < (cfg.num_bins_r_par : ℚ) := by
    have hq1 : (rp - cfg.r_par_min) / (cfg.r_par_max - cfg.r_par_min) < 1 :=
      (div_lt_one hden).mpr (by linarith)
    calc (rp - cfg.r_par_min) / (cfg.r_par_max - cfg.r_par_min) *
        (cfg.num_bins_r_par : ℚ)
        < 1 * (cfg.num_bins_r_par : ℚ) := mul_lt_mul_of_pos_right hq1 hnpq
      _ = (cfg.num_bins_r_par : ℚ) := one_mul _
  have hlow : (cfg.num_bins_r_par : ℚ) - 1 <
      (rp - cfg.r_par_min) / (cfg.r_par_max - cfg.r_par_min) *
        (cfg.num_bins_r_par : ℚ) := by
    rw [div_mul_eq_mul_div, lt_div_iff hden]
    have hmul : (cfg.num_bins_r_par : ℚ) *
        (cfg.r_par_max - (cfg.r_par_max - cfg.r_par_min) /
          (cfg.num_bins_r_par : ℚ)) < (cfg.num_bins_r_par : ℚ) * rp :=
      mul_lt_mul_of_pos_left hlast hnpq
    have hcancel : (cfg.num_bins_r_par : ℚ) *
        ((cfg.r_par_max - cfg.r_par_min) / (cfg.num_bins_r_par : ℚ)) =
        cfg.r_par_max - cfg.r_par_min := by
      field_simp
    nlinarith [hmul, hcancel]
  have h0 : (((cfg.num_bins_r_par : ℤ) - 1 : ℤ) : ℚ) ≤
      (rp - cfg.r_par_min) / (cfg.r_par_max - cfg.r_par_min) *
        (cfg.num_bins_r_par : ℚ) := by
    push_cast
    linarith
  have h1' : (rp - cfg.r_par_min) / (cfg.r_par_max - cfg.r_par_min) *
      (cfg.num_bins_r_par : ℚ) < (((cfg.num_bins_r_par : ℤ) - 1 : ℤ) : ℚ) + 1 := by
    push_cast
    linarith
  exact Int.floor_eq_iff.mpr ⟨h0, h1'⟩

/-- Membership in the row-major index enumeration. -/
theorem mem_pairList {n1 n2 : ℕ} {ij : ℕ × ℕ} (h : ij ∈ pairList n1 n2) :
    ij.1 < n1 ∧ ij.2 < n2 := by
  simp only [pairList, List.mem_flatMap, List.mem_map, List.mem_range] at h
  obtain ⟨i, hi, j, hj, rfl⟩ := h
  exact ⟨hi, hj⟩

/-- Every surviving pair of `compute_xi_forest_pairs` satisfies the
selection window, and its weight factors are the indexed input weights. -/
theorem mem_xi_pairs {cfg : Config} {fns : RealFns}
    {z1 r_comov1 dist_m1 weights1 delta1 z2 r_comov2 dist_m2 weights2 ang :
      List ℚ} {p : XiPair}
    (h : p ∈ compute_xi_forest_pairs cfg fns z1 r_comov1 dist_m1 weights1
      delta1 z2 r_comov2 dist_m2 weights2 ang) :
    p.w1i = weights1.getD p.i 0 ∧ p.w2j = weights2.getD p.j 0 ∧
      xi_pair_mask cfg p.rp p.rt := by
  simp only [compute_xi_forest_pairs, List.mem_filterMap,
    Option.ite_none_right_eq_some, Option.some.injEq] at h
  obtain ⟨ij, -, hm, rfl⟩ := h
  exact ⟨rfl, rfl, hm⟩

/-- Every surviving pair of `compute_dmat_forest_pairs` satisfies the
selection window; its separations, weight and indices are the indexed
input data. -/
theorem mem_dmat_pairs {cfg : Config} {fns : RealFns}
    {r_comov1 dist_m1 z1 weights1 r_comov2 dist_m2 z2 weights2 ang : List ℚ}
    {p : DmatPair}
    (h : p ∈ compute_dmat_pairs cfg fns r_comov1 dist_m1 z1 weights1 r_comov2
      dist_m2 z2 weights2 ang) :
    p.i < r_comov1.length ∧ p.j < r_comov2.length ∧
      p.rp = (r_comov1.getD p.i 0 - r_comov2.getD p.j 0) *
        fns.cos (ang.getD p.j 0 / 2) ∧
      p.rt = (dist_m1.getD p.i 0 + dist_m2.getD p.j 0) *
        fns.sin (ang.getD p.j 0 / 2) ∧
      p.w12 = weights1.getD p.i 0 * weights2.getD p.j 0 ∧
      dmat_pair_mask cfg p.rp p.rt := by
  simp only [compute_dmat_pairs, List.mem_filterMap,
    Option.ite_none_right_eq_some, Option.some.injEq] at h
  obtain ⟨ij, hij, hm, rfl⟩ := h
  obtain ⟨h1, h2⟩ := mem_pairList hij
  exact ⟨h1, h2, rfl, rfl, rfl, hm⟩

/-- C1: the pair-selection masks of `compute_xi_forest_pairs` and
`compute_dmat_forest_pairs` are strict (a parallel separation exactly at
`r_par_min` or `r_par_max` is excluded, a transverse separation at or
beyond `r_trans_max` is excluded) and identical; every surviving pair of
either engine satisfies the mask (hence is absent from every
accumulator); and for every surviving value the parallel data-bin index
equals `floor((r_par - r_par_min)/(r_par_max - r_par_min)*num_bins_r_par)`
and lies in `[0, num_bins_r_par)`, a value in the last window cell landing
in the last bin. -/
theorem claim_C1_window_and_parallel_bins :
    (∀ (cfg : Config) (rt : ℚ), ¬ xi_pair_mask cfg cfg.r_par_min rt) ∧
    (∀ (cfg : Config) (rt : ℚ), ¬ xi_pair_mask cfg cfg.r_par_max rt) ∧
    (∀ (cfg : Config) (rp rt : ℚ), cfg.r_trans_max ≤ rt →
      ¬ xi_pair_mask cfg rp rt) ∧
    (∀ (cfg : Config) (rp rt : ℚ),
      xi_pair_mask cfg rp rt ↔ dmat_pair_mask cfg rp rt) ∧
    (∀ (cfg : Config) (fns : RealFns)
      (z1 r1 dm1 w1 de1 z2 r2 dm2 w2 ang : List ℚ),
      ∀ p ∈ compute_xi_forest_pairs cfg fns z1 r1 dm1 w1 de1 z2 r2 dm2 w2 ang,
        xi_pair_mask cfg p.rp p.rt) ∧
    (∀ (cfg : Config) (fns : RealFns)
      (r1 dm1 z1 w1 r2 dm2 z2 w2 ang : List ℚ),
      ∀ p ∈ compute_dmat_pairs cfg fns r1 dm1 z1 w1 r2 dm2 z2 w2 ang,
        dmat_pair_mask cfg p.rp p.rt) ∧
    (∀ (cfg : Config) (rp rt : ℚ), 0 < cfg.num_bins_r_par →
      cfg.r_par_min < cfg.r_par_max → xi_pair_mask cfg rp rt →
      bin_r_par cfg rp =
        ⌊(rp - cfg.r_par_min) / (cfg.r_par_max - cfg.r_par_min) *
          (cfg.num_bins_r_par : ℚ)⌋ ∧
      0 ≤ bin_r_par cfg rp ∧ bin_r_par cfg rp < cfg.num_bins_r_par) ∧
    (∀ (cfg : Config) (rp rt : ℚ), 0 < cfg.num_bins_r_par →
      cfg.r_par_min < cfg.r_par_max → xi_pair_mask cfg rp rt →
      cfg.r_par_max - (cfg.r_par_max - cfg.r_par_min) /
        (cfg.num_bins_r_par : ℚ) < rp →
      bin_r_par cfg rp = (cfg.num_bins_r_par : ℤ) - 1) := by
  refine ⟨?_, ?_, ?_, ?_, ?_, ?_, ?_, ?_⟩
  · intro cfg rt h
    exact lt_irrefl _ h.1
  · intro cfg rt h
    exact lt_irrefl _ h.2.1
  · intro cfg rp rt hle h
    exact absurd h.2.2 (not_lt.mpr hle)
  · intro cfg rp rt
    exact Iff.rfl
  · intro cfg fns z1 r1 dm1 w1 de1 z2 r2 dm2 w2 ang p hp
    exact (mem_xi_pairs hp).2.2
  · intro cfg fns r1 dm1 z1 w1 r2 dm2 z2 w2 ang p hp
    exact (mem_dmat_pairs hp).2.2.2.2.2
  · intro cfg rp rt hnp hlt hm
    exact bin_r_par_range cfg rp hnp hlt hm.1 hm.2.1
  · intro cfg rp rt hnp hlt hm hlast
    exact bin_r_par_last cfg rp hnp hlt hm.1 hm.2.1 hlast

/-- Concrete instantiation of the C1 theorem: with
`r_par_min = 0`, `r_par_max = 2`, two parallel bins, the value
`r_par = 3/2` survives the window, bins to `1` (the last bin, in range),
while `r_par = 0`, `r_par = 2` and `r_trans = 1 = r_trans_max` are
excluded. -/
theorem claim_C1_window_and_parallel_bins_witness :
    (¬ xi_pair_mask
      { num_bins_r_par := 2, num_bins_r_trans := 1,
        num_model_bins_r_par := 2, num_model_bins_r_trans := 1,
        r_par_max := 2, r_par_min := 0, r_trans_max := 1, reject := 0,
        ang_correlation := false } 0 0) ∧
    (0 ≤ bin_r_par
      { num_bins_r_par := 2, num_bins_r_trans := 1,
        num_model_bins_r_par := 2, num_model_bins_r_trans := 1,
        r_par_max := 2, r_par_min := 0, r_trans_max := 1, reject := 0,
        ang_correlation := false } (3/2) ∧
     bin_r_par
      { num_bins_r_par := 2, num_bins_r_trans := 1,
        num_model_bins_r_par := 2, num_model_bins_r_trans := 1,
        r_par_max := 2, r_par_min := 0, r_trans_max := 1, reject := 0,
        ang_correlation := false } (3/2) < 2) ∧
    bin_r_par
      { num_bins_r_par := 2, num_bins_r_trans := 1,
        num_model_bins_r_par := 2, num_model_bins_r_trans := 1,
        r_par_max := 2, r_par_min := 0, r_trans_max := 1, reject := 0,
        ang_correlation := false } (3/2) = 1 := by
  refine ⟨?_, ?_, ?_⟩
  · exact claim_C1_window_and_parallel_bins.1 _ 0
  · have h := claim_C1_window_and_parallel_bins.2.2.2.2.2.2.1
      { num_bins_r_par := 2, num_bins_r_trans := 1,
        num_model_bins_r_par := 2, num_model_bins_r_trans := 1,
        r_par_max := 2, r_par_min := 0, r_trans_max := 1, reject := 0,
        ang_correlation := false } (3/2) 0 (by decide) (by norm_num)
      (by constructor <;> norm_num)
    exact ⟨h.2.1, by exact_mod_cast h.2.2⟩
  · have h := claim_C1_window_and_parallel_bins.2.2.2.2.2.2.2
      { num_bins_r_par := 2, num_bins_r_trans := 1,
        num_model_bins_r_par := 2, num_model_bins_r_trans := 1,
        r_par_max := 2, r_par_min := 0, r_trans_max := 1, reject := 0,
        ang_correlation := false } (3/2) 0 (by decide) (by norm_num)
      (by constructor <;> norm_num) (by norm_num)
    simpa using h

/-- A delta with no neighbours contributes no surviving pair. -/
theorem xi_delta_pairs_empty {cfg : Config} {fns : RealFns} {d : Delta}
    (h : d.neighs.length = 0) : xi_delta_pairs cfg fns d = [] := by
  have hnil : d.neighs = [] := List.length_eq_zero.mp h
  unfold xi_delta_pairs compute_xi_forest_pairs
  rw [hnil]
  by_cases hb : cfg.ang_correlation = true <;> simp [hb, pairList]

/-- Generic fold law for the per-delta accumulation of `compute_xi`. -/
theorem xi_foldl_field (cfg : Config) (fns : RealFns) (g : XiAcc → ℕ → ℚ)
    (cf : Delta → ℕ → ℚ)
    (hstep : ∀ a d b, g (xi_add_delta cfg fns a d) b = g a b + cf d b) :
    ∀ (ds : List Delta) (a : XiAcc) (b : ℕ),
      g (ds.foldl (xi_add_delta cfg fns) a) b =
        g a b + (ds.map (fun d => cf d b)).sum := by
  intro ds
  induction ds with
  | nil => intro a b; simp
  | cons d tl ih =>
    intro a b
    rw [List.foldl_cons, ih, hstep, List.map_cons, List.sum_cons]
    ring

/-- The `weights` accumulator of `compute_xi` is the sum over deltas of
the per-delta pair-weight bincount. -/
theorem xi_accumulate_weights (cfg : Config) (fns : RealFns) (ds : List Delta)
    (b : ℕ) :
    (xi_accumulate cfg fns ds).weights b =
      (ds.map (fun d =>
        rebin cfg (xi_delta_pairs cfg fns d) (fun p => p.w12) b)).sum := by
  have hstep : ∀ a d b, (xi_add_delta cfg fns a d).weights b =
      a.weights b + rebin cfg (xi_delta_pairs cfg fns d) (fun p => p.w12) b := by
    intro a d b
    unfold xi_add_delta
    by_cases h : d.neighs.length = 0
    · rw [if_pos h, xi_delta_pairs_empty h]
      simp [rebin]
    · rw [if_neg h]
  have h := xi_foldl_field cfg fns (fun a => a.weights)
    (fun d b => rebin cfg (xi_delta_pairs cfg fns d) (fun p => p.w12) b) hstep ds xi_zero b
  unfold xi_accumulate
  simpa [xi_zero] using h

/-- The `xi` accumulator of `compute_xi` is the sum over deltas of the
per-delta signal bincount. -/
theorem xi_accumulate_xi (cfg : Config) (fns : RealFns) (ds : List Delta)
    (b : ℕ) :
    (xi_accumulate cfg fns ds).xi b =
      (ds.map (fun d =>
        rebin cfg (xi_delta_pairs cfg fns d) (fun p => p.dtw) b)).sum := by
  have hstep : ∀ a d b, (xi_add_delta cfg fns a d).xi b =
      a.xi b + rebin cfg (xi_delta_pairs cfg fns d) (fun p => p.dtw) b := by
    intro a d b
    unfold xi_add_delta
    by_cases h : d.neighs.length = 0
    · rw [if_pos h, xi_delta_pairs_empty h]
      simp [rebin]
    · rw [if_neg h]
  have h := xi_foldl_field cfg fns (fun a => a.xi)
    (fun d b => rebin cfg (xi_delta_pairs cfg fns d) (fun p => p.dtw) b) hstep ds xi_zero b
  unfold xi_accumulate
  simpa [xi_zero] using h

/-- The `r_par` accumulator of `compute_xi` as a sum over deltas. -/
theorem xi_accumulate_r_par (cfg : Config) (fns : RealFns) (ds : List Delta)
    (b : ℕ) :
    (xi_accumulate cfg fns ds).r_par b =
      (ds.map (fun d =>
        rebin cfg (xi_delta_pairs cfg fns d) (fun p => p.rp * p.w12) b)).sum := by
  have hstep : ∀ a d b, (xi_add_delta cfg fns a d).r_par b =
      a.r_par b + rebin cfg (xi_delta_pairs cfg fns d) (fun p => p.rp * p.w12) b := by
    intro a d b
    unfold xi_add_delta
    by_cases h : d.neighs.length = 0
    · rw [if_pos h, xi_delta_pairs_empty h]
      simp [rebin]
    · rw [if_neg h]
  have h := xi_foldl_field cfg fns (fun a => a.r_par)
    (fun d b => rebin cfg (xi_delta_pairs cfg fns d) (fun p => p.rp * p.w12) b) hstep ds xi_zero b
  unfold xi_accumulate
  simpa [xi_zero] using h

/-- The `r_trans` accumulator of `compute_xi` as a sum over deltas. -/
theorem xi_accumulate_r_trans (cfg : Config) (fns : RealFns) (ds : List Delta)
    (b : ℕ) :
    (xi_accumulate cfg fns ds).r_trans b =
      (ds.map (fun d =>
        rebin cfg (xi_delta_pairs cfg fns d) (fun p => p.rt * p.w12) b)).sum := by
  have hstep : ∀ a d b, (xi_add_delta cfg fns a d).r_trans b =
      a.r_trans b + rebin cfg (xi_delta_pairs cfg fns d) (fun p => p.rt * p.w12) b := by
    intro a d b
    unfold xi_add_delta
    by_cases h : d.neighs.length = 0
    · rw [if_pos h, xi_delta_pairs_empty h]
      simp [rebin]
    · rw [if_neg h]
  have h := xi_foldl_field cfg fns (fun a => a.r_trans)
    (fun d b => rebin cfg (xi_delta_pairs cfg fns d) (fun p => p.rt * p.w12) b) hstep ds xi_zero b
  unfold xi_accumulate
  simpa [xi_zero] using h

/-- The `z` accumulator of `compute_xi` as a sum over deltas. -/
theorem xi_accumulate_z (cfg : Config) (fns : RealFns) (ds : List Delta)
    (b : ℕ) :
    (xi_accumulate cfg fns ds).z b =
      (ds.map (fun d =>
        rebin cfg (xi_delta_pairs cfg fns d) (fun p => p.z * p.w12) b)).sum := by
  have hstep : ∀ a d b, (xi_add_delta cfg fns a d).z b =
      a.z b + rebin cfg (xi_delta_pairs cfg fns d) (fun p => p.z * p.w12) b := by
    intro a d b
    unfold xi_add_delta
    by_cases h : d.neighs.length = 0
    · rw [if_pos h, xi_delta_pairs_empty h]
      simp [rebin]
    · rw [if_neg h]
  have h := xi_foldl_field cfg fns (fun a => a.z)
    (fun d b => rebin cfg (xi_delta_pairs cfg fns d) (fun p => p.z * p.w12) b) hstep ds xi_zero b
  unfold xi_accumulate
  simpa [xi_zero] using h

/-- The weight factors of a surviving pair of one delta's contribution are
the indexed forest and neighbour weights (both mode branches). -/
theorem mem_xi_delta_pairs {cfg : Config} {fns : RealFns} {d : Delta}
    {p : XiPair} (h : p ∈ xi_delta_pairs cfg fns d) :
    p.w1i = d.weights.getD p.i 0 ∧
      p.w2j = (d.neighs.map (fun o => o.weights)).getD p.j 0 := by
  unfold xi_delta_pairs at h
  by_cases hb : cfg.ang_correlation = true
  · rw [if_pos hb] at h
    exact ⟨(mem_xi_pairs h).1, (mem_xi_pairs h).2.1⟩
  · rw [if_neg hb] at h
    exact ⟨(mem_xi_pairs h).1, (mem_xi_pairs h).2.1⟩

/-- Surviving pair weights are nonnegative when the forest and neighbour
weights are. -/
theorem xi_delta_pairs_w12_nonneg {cfg : Config} {fns : RealFns} {d : Delta}
    (hw : ∀ x ∈ d.weights, 0 ≤ x) (ho : ∀ o ∈ d.neighs, 0 ≤ o.weights)
    {p : XiPair} (h : p ∈ xi_delta_pairs cfg fns d) : 0 ≤ p.w12 := by
  obtain ⟨h1, h2⟩ := mem_xi_delta_pairs h
  have hw2 : ∀ x ∈ d.neighs.map (fun o => o.weights), 0 ≤ x := by
    intro x hx
    obtain ⟨o, ho', rfl⟩ := List.mem_map.mp hx
    exact ho o ho'
  unfold XiPair.w12
  rw [h1, h2]
  exact mul_nonneg (getD_nonneg hw _) (getD_nonneg hw2 _)

/-- A bin whose pair-weight bincount vanishes (with nonnegative pair
weights) has a vanishing bincount for every quantity that vanishes with
the pair weight. -/
theorem rebin_eq_zero_of_w12_zero (cfg : Config) (ps : List XiPair) (b : ℕ)
    (hnn : ∀ p ∈ ps, 0 ≤ p.w12)
    (h0 : rebin cfg ps (fun p => p.w12) b = 0)
    (f : XiPair → ℚ) (hf : ∀ p ∈ ps, p.w12 = 0 → f p = 0) :
    rebin cfg ps f b = 0 := by
  have hz : ∀ x ∈ ps.map (fun p => if p.bin cfg = (b : ℤ) then p.w12 else 0),
      x = 0 := by
    refine sum_zero_of_nonneg ?_ h0
    intro x hx
    obtain ⟨p, hp, rfl⟩ := List.mem_map.mp hx
    by_cases hbin : p.bin cfg = (b : ℤ)
    · simpa [hbin] using hnn p hp
    · simp [hbin]
  apply List.sum_eq_zero
  intro x hx
  obtain ⟨p, hp, rfl⟩ := List.mem_map.mp hx
  by_cases hbin : p.bin cfg = (b : ℤ)
  · have hw0 : p.w12 = 0 := by
      have := hz _ (List.mem_map_of_mem _ hp)
      simpa [hbin] using this
    simp [hbin, hf p hp hw0]
  · simp [hbin]

/-- C5: in the result of `compute_xi` (for nonnegative weights), every bin
with zero accumulated weight has `xi`, `r_par`, `r_trans` and `z` equal to
zero (no division is performed for it); every bin with positive
accumulated weight has each of those sums divided by the weight sum
exactly once; and the returned `weights` array is the undivided weight
sum. -/
theorem claim_C5_normalisation (cfg : Config) (fns : RealFns) (ds : List Delta)
    (hw : ∀ d ∈ ds, ∀ x ∈ d.weights, 0 ≤ x)
    (ho : ∀ d ∈ ds, ∀ o ∈ d.neighs, 0 ≤ o.weights) (b : ℕ) :
    ((xi_accumulate cfg fns ds).weights b = 0 →
      (compute_xi cfg fns ds).xi b = 0 ∧
      (compute_xi cfg fns ds).r_par b = 0 ∧
      (compute_xi cfg fns ds).r_trans b = 0 ∧
      (compute_xi cfg fns ds).z b = 0) ∧
    (0 < (xi_accumulate cfg fns ds).weights b →
      (compute_xi cfg fns ds).xi b =
        (xi_accumulate cfg fns ds).xi b /
          (xi_accumulate cfg fns ds).weights b ∧
      (compute_xi cfg fns ds).r_par b =
        (xi_accumulate cfg fns ds).r_par b /
          (xi_accumulate cfg fns ds).weights b ∧
      (compute_xi cfg fns ds).r_trans b =
        (xi_accumulate cfg fns ds).r_trans b /
          (xi_accumulate cfg fns ds).weights b ∧
      (compute_xi cfg fns ds).z b =
        (xi_accumulate cfg fns ds).z b /
          (xi_accumulate cfg fns ds).weights b) ∧
    (compute_xi cfg fns ds).weights b =
      (xi_accumulate cfg fns ds).weights b := by
  refine ⟨?_, ?_, rfl⟩
  · intro h0
    have hnlt : ¬ 0 < (xi_accumulate cfg fns ds).weights b := by
      rw [h0]
      exact lt_irrefl 0
    have hterms : ∀ x ∈ ds.map (fun d =>
        rebin cfg (xi_delta_pairs cfg fns d) (fun p => p.w12) b), x = 0 := by
      refine sum_zero_of_nonneg ?_ ((xi_accumulate_weights cfg fns ds b).symm.trans h0)
      intro x hx
      obtain ⟨d, hd, rfl⟩ := List.mem_map.mp hx
      refine List.sum_nonneg ?_
      intro y hy
      obtain ⟨p, hp, rfl⟩ := List.mem_map.mp hy
      by_cases hbin : p.bin cfg = (b : ℤ)
      · simpa [hbin] using xi_delta_pairs_w12_nonneg (hw d hd) (ho d hd) hp
      · simp [hbin]
    have hfield : ∀ (f : XiPair → ℚ), (∀ p : XiPair, p.w12 = 0 → f p = 0) →
        (ds.map (fun d =>
          rebin cfg (xi_delta_pairs cfg fns d) f b)).sum = 0 := by
      intro f hf
      apply List.sum_eq_zero
      intro x hx
      obtain ⟨d, hd, rfl⟩ := List.mem_map.mp hx
      refine rebin_eq_zero_of_w12_zero cfg _ b
        (fun p hp => xi_delta_pairs_w12_nonneg (hw d hd) (ho d hd) hp)
        (hterms _ (List.mem_map_of_mem _ hd)) f (fun p _ => hf p)
    have hzx : (xi_accumulate cfg fns ds).xi b = 0 := by
      rw [xi_accumulate_xi]
      refine hfield _ ?_
      intro p hp
      have hd : p.w1i * p.d1i * p.w2j = p.d1i * (p.w1i * p.w2j) := by ring
      unfold XiPair.dtw
      unfold XiPair.w12 at hp
      rw [hd, hp, mul_zero]
    have hzp : (xi_accumulate cfg fns ds).r_par b = 0 := by
      rw [xi_accumulate_r_par]
      exact hfield _ (fun p hp => by rw [hp, mul_zero])
    have hzt : (xi_accumulate cfg fns ds).r_trans b = 0 := by
      rw [xi_accumulate_r_trans]
      exact hfield _ (fun p hp => by rw [hp, mul_zero])
    have hzz : (xi_accumulate cfg fns ds).z b = 0 := by
      rw [xi_accumulate_z]
      exact hfield _ (fun p hp => by rw [hp, mul_zero])
    refine ⟨?_, ?_, ?_, ?_⟩ <;>
      simp only [compute_xi, if_neg hnlt] <;> assumption
  · intro hpos
    refine ⟨?_, ?_, ?_, ?_⟩ <;> simp only [compute_xi, if_pos hpos]

/-- Configuration of the C5 witness instance. -/
def c5_cfg : Config :=
  { num_bins_r_par := 1, num_bins_r_trans := 1, num_model_bins_r_par := 1,
    num_model_bins_r_trans := 1, r_par_max := 2, r_par_min := 0,
    r_trans_max := 1, reject := 0, ang_correlation := false }

/-- Real-function instantiation of the C5 witness instance. -/
def c5_fns : RealFns :=
  { cos := fun _ => 1, sin := fun _ => 0, pow10 := fun x => x }

/-- The single neighbour object of the C5 witness instance. -/
def c5_obj : Obj :=
  { thingid := 2, z_qso := 1, weights := 1, r_comov := 0, dist_m := 0,
    log_lambda := 0 }

/-- The single delta of the C5 witness instance. -/
def c5_delta : Delta :=
  { thingid := 1, z_qso := 1, z := [1], r_comov := [1], dist_m := [0],
    log_lambda := [1], weights := [1], delta := [1],
    neighbours := some [c5_obj], ang := [0] }

/-- Concrete instantiation of the C5 theorem: one delta with one pixel
and one neighbour, unit weights; every zero-weight bin of the result is
zero in all four normalised arrays. -/
theorem claim_C5_normalisation_witness :
    (xi_accumulate c5_cfg c5_fns [c5_delta]).weights 5 = 0 ∧
      ((compute_xi c5_cfg c5_fns [c5_delta]).xi 5 = 0 ∧
      (compute_xi c5_cfg c5_fns [c5_delta]).r_par 5 = 0 ∧
      (compute_xi c5_cfg c5_fns [c5_delta]).r_trans 5 = 0 ∧
      (compute_xi c5_cfg c5_fns [c5_delta]).z 5 = 0) ∧
      (compute_xi c5_cfg c5_fns [c5_delta]).weights 0 =
        (xi_accumulate c5_cfg c5_fns [c5_delta]).weights 0 :=
  ⟨by
    norm_num [xi_accumulate, xi_add_delta, xi_delta_pairs, c5_cfg, c5_fns,
      c5_delta, c5_obj, Delta.neighs, compute_xi_forest_pairs, pairList,
      xi_pair_mask, rebin, XiPair.w12, XiPair.bin, bin_index, bin_r_par,
      bin_r_trans, np_astype_int, xi_zero, List.flatMap, List.range_succ,
      List.range_zero, List.filterMap_cons, List.map_cons, List.sum_cons,
      List.getD_cons_zero, List.getD_cons_succ, List.getD_nil,
      Function.comp],
   (claim_C5_normalisation c5_cfg c5_fns [c5_delta] (by norm_num [c5_delta])
     (by norm_num [c5_delta, c5_obj, Delta.neighs]) 5).1 (by
    norm_num [xi_accumulate, xi_add_delta, xi_delta_pairs, c5_cfg, c5_fns,
      c5_delta, c5_obj, Delta.neighs, compute_xi_forest_pairs, pairList,
      xi_pair_mask, rebin, XiPair.w12, XiPair.bin, bin_index, bin_r_par,
      bin_r_trans, np_astype_int, xi_zero, List.flatMap, List.range_succ,
      List.range_zero, List.filterMap_cons, List.map_cons, List.sum_cons,
      List.getD_cons_zero, List.getD_cons_succ, List.getD_nil,
      Function.comp]),
   (claim_C5_normalisation c5_cfg c5_fns [c5_delta] (by norm_num [c5_delta])
     (by norm_num [c5_delta, c5_obj, Delta.neighs]) 0).2.2⟩

/-- Truncation of `x * n` for `x ∈ [0, 1)` lands in `[0, n)`. -/
theorem trunc_mul_range (x : ℚ) (n : ℕ) (hn : 0 < n) (h0 : 0 ≤ x)
    (h1 : x < 1) :
    0 ≤ np_astype_int (x * (n : ℚ)) ∧ np_astype_int (x * (n : ℚ)) < n := by
  have hnq : (0 : ℚ) < (n : ℚ) := by exact_mod_cast hn
  have hx0 : (0 : ℚ) ≤ x * (n : ℚ) := mul_nonneg h0 (le_of_lt hnq)
  have hx1 : x * (n : ℚ) < (n : ℚ) := by
    calc x * (n : ℚ) < 1 * (n : ℚ) := mul_lt_mul_of_pos_right h1 hnq
      _ = (n : ℚ) := one_mul _
  rw [np_astype_int_of_nonneg hx0]
  exact ⟨Int.le_floor.mpr (by exact_mod_cast hx0),
    by exact_mod_cast Int.floor_lt.mpr (by exact_mod_cast hx1)⟩

/-- A transverse/parallel bin pair in range yields a flattened bin in
range. -/
theorem bin_combine {bt bp : ℤ} {nt np : ℕ} (h1 : 0 ≤ bt) (h2 : bt < nt)
    (h3 : 0 ≤ bp) (h4 : bp < np) :
    0 ≤ bt + (nt : ℤ) * bp ∧ bt + (nt : ℤ) * bp < ((np * nt : ℕ) : ℤ) := by
  constructor
  · have : (0 : ℤ) ≤ (nt : ℤ) * bp := mul_nonneg (by positivity) h3
    linarith
  · push_cast
    nlinarith

/-- Every surviving pair of `compute_dmat_forest_pairs` has its flattened
data bin in `[0, num_bins_r_par*num_bins_r_trans)` and its flattened model
bin in `[0, num_model_bins_r_par*num_model_bins_r_trans)`, for a valid
configuration and physical (nonnegative) transverse geometry. -/
theorem dmat_pairs_bins_range (cfg : Config) (fns : RealFns)
    (r_comov1 dist_m1 z1 weights1 r_comov2 dist_m2 z2 weights2 ang : List ℚ)
    (hnp : 0 < cfg.num_bins_r_par) (hnt : 0 < cfg.num_bins_r_trans)
    (hmnp : 0 < cfg.num_model_bins_r_par)
    (hmnt : 0 < cfg.num_model_bins_r_trans)
    (hlt : cfg.r_par_min < cfg.r_par_max) (hrt : 0 < cfg.r_trans_max)
    (hdm1 : ∀ x ∈ dist_m1, 0 ≤ x) (hdm2 : ∀ x ∈ dist_m2, 0 ≤ x)
    (hsin : ∀ a ∈ ang, 0 ≤ fns.sin (a / 2)) (hang : ang.length = r_comov2.length) :
    ∀ p ∈ compute_dmat_pairs cfg fns r_comov1 dist_m1 z1 weights1 r_comov2
      dist_m2 z2 weights2 ang,
      (0 ≤ p.bin cfg ∧
        p.bin cfg < ((cfg.num_bins_r_par * cfg.num_bins_r_trans : ℕ) : ℤ)) ∧
      (0 ≤ p.mbin cfg ∧
        p.mbin cfg <
          ((cfg.num_model_bins_r_par * cfg.num_model_bins_r_trans : ℕ) : ℤ)) := by
  intro p hp
  obtain ⟨hi, hj, hrp, hrtv, hw, hmask⟩ := mem_dmat_pairs hp
  have hrt0 : 0 ≤ p.rt := by
    rw [hrtv]
    have hsa : 0 ≤ fns.sin (ang.getD p.j 0 / 2) := by
      refine hsin _ (getD_mem ?_ 0)
      omega
    exact mul_nonneg
      (add_nonneg (getD_nonneg hdm1 _) (getD_nonneg hdm2 _)) hsa
  have hbp := bin_r_par_range cfg p.rp hnp hlt hmask.1 hmask.2.1
  have hx0 : (0 : ℚ) ≤ p.rt / cfg.r_trans_max :=
    div_nonneg hrt0 (le_of_lt hrt)
  have hx1 : p.rt / cfg.r_trans_max < 1 := (div_lt_one hrt).mpr hmask.2.2
  have hbt := trunc_mul_range (p.rt / cfg.r_trans_max) cfg.num_bins_r_trans
    hnt hx0 hx1
  have hmbt := trunc_mul_range (p.rt / cfg.r_trans_max)
    cfg.num_model_bins_r_trans hmnt hx0 hx1
  have hmbpx0 : (0 : ℚ) ≤ (p.rp - cfg.r_par_min) /
      (cfg.r_par_max - cfg.r_par_min) :=
    le_of_lt (div_pos (by linarith [hmask.1, hmask.2.1]) (by linarith))
  have hmbpx1 : (p.rp - cfg.r_par_min) / (cfg.r_par_max - cfg.r_par_min) < 1 :=
    (div_lt_one (by linarith)).mpr (by linarith [hmask.2.1])
  have hmbp := trunc_mul_range
    ((p.rp - cfg.r_par_min) / (cfg.r_par_max - cfg.r_par_min))
    cfg.num_model_bins_r_par hmnp hmbpx0 hmbpx1
  constructor
  · exact bin_combine hbt.1 hbt.2 hbp.2.1 hbp.2.2
  · exact bin_combine hmbt.1 hmbt.2 hmbp.1 hmbp.2

/-- C7: for one `compute_dmat_forest_pairs` call with a valid
configuration and physical geometry (the model grid shares the data
grid's window, so no surviving pair is removed by a model-grid window),
the total weight added to `weights_dmat` over all data bins equals the
total weight added to `weight_eff` over all model bins. -/
theorem claim_C7_weight_conservation (cfg : Config) (fns : RealFns)
    (log_lambda1 r_comov1 dist_m1 z1 weights1 r_comov2 dist_m2 z2 weights2
      ang : List ℚ) (s : DmatState)
    (hnp : 0 < cfg.num_bins_r_par) (hnt : 0 < cfg.num_bins_r_trans)
    (hmnp : 0 < cfg.num_model_bins_r_par)
    (hmnt : 0 < cfg.num_model_bins_r_trans)
    (hlt : cfg.r_par_min < cfg.r_par_max) (hrt : 0 < cfg.r_trans_max)
    (hdm1 : ∀ x ∈ dist_m1, 0 ≤ x) (hdm2 : ∀ x ∈ dist_m2, 0 ≤ x)
    (hsin : ∀ a ∈ ang, 0 ≤ fns.sin (a / 2))
    (hang : ang.length = r_comov2.length) :
    ((Finset.range (cfg.num_bins_r_par * cfg.num_bins_r_trans)).sum fun b =>
      (compute_dmat_forest_pairs cfg fns log_lambda1 r_comov1 dist_m1 z1
        weights1 r_comov2 dist_m2 z2 weights2 ang s).weights_dmat b -
        s.weights_dmat b) =
    ((Finset.range
      (cfg.num_model_bins_r_par * cfg.num_model_bins_r_trans)).sum fun b =>
      (compute_dmat_forest_pairs cfg fns log_lambda1 r_comov1 dist_m1 z1
        weights1 r_comov2 dist_m2 z2 weights2 ang s).weight_eff b -
        s.weight_eff b) := by
  have hrange := dmat_pairs_bins_range cfg fns r_comov1 dist_m1 z1 weights1
    r_comov2 dist_m2 z2 weights2 ang hnp hnt hmnp hmnt hlt hrt hdm1 hdm2
    hsin hang
  have hws : ∀ b, (compute_dmat_forest_pairs cfg fns log_lambda1 r_comov1
      dist_m1 z1 weights1 r_comov2 dist_m2 z2 weights2 ang s).weights_dmat b -
      s.weights_dmat b =
      drebin cfg (compute_dmat_pairs cfg fns r_comov1 dist_m1 z1 weights1
        r_comov2 dist_m2 z2 weights2 ang) b := by
    intro b
    simp [compute_dmat_forest_pairs]
  have hwe : ∀ b, (compute_dmat_forest_pairs cfg fns log_lambda1 r_comov1
      dist_m1 z1 weights1 r_comov2 dist_m2 z2 weights2 ang s).weight_eff b -
      s.weight_eff b =
      mrebin cfg (compute_dmat_pairs cfg fns r_comov1 dist_m1 z1 weights1
        r_comov2 dist_m2 z2 weights2 ang) (fun p => p.w12) b := by
    intro b
    simp [compute_dmat_forest_pairs]
  calc ((Finset.range (cfg.num_bins_r_par * cfg.num_bins_r_trans)).sum fun b =>
      (compute_dmat_forest_pairs cfg fns log_lambda1 r_comov1 dist_m1 z1
        weights1 r_comov2 dist_m2 z2 weights2 ang s).weights_dmat b -
        s.weights_dmat b)
      = ((Finset.range (cfg.num_bins_r_par * cfg.num_bins_r_trans)).sum
          fun b => drebin cfg (compute_dmat_pairs cfg fns r_comov1 dist_m1 z1
            weights1 r_comov2 dist_m2 z2 weights2 ang) b) :=
        Finset.sum_congr rfl (fun b _ => hws b)
    _ = ((compute_dmat_pairs cfg fns r_comov1 dist_m1 z1 weights1 r_comov2
          dist_m2 z2 weights2 ang).map (fun p => p.w12)).sum := by
        refine sum_range_bincount _ _ _ _ ?_
        intro p hp
        exact (hrange p hp).1
    _ = ((Finset.range
          (cfg.num_model_bins_r_par * cfg.num_model_bins_r_trans)).sum
          fun b => mrebin cfg (compute_dmat_pairs cfg fns r_comov1 dist_m1 z1
            weights1 r_comov2 dist_m2 z2 weights2 ang) (fun p => p.w12) b) := by
        refine (sum_range_bincount _ _ _ _ ?_).symm
        intro p hp
        exact (hrange p hp).2
    _ = ((Finset.range
          (cfg.num_model_bins_r_par * cfg.num_model_bins_r_trans)).sum
          fun b =>
          (compute_dmat_forest_pairs cfg fns log_lambda1 r_comov1 dist_m1 z1
            weights1 r_comov2 dist_m2 z2 weights2 ang s).weight_eff b -
            s.weight_eff b) :=
        Finset.sum_congr rfl (fun b _ => (hwe b).symm)

/-- Concrete instantiation of the C7 theorem: one pixel, one neighbour,
unit weights, valid 1x1 data and model grids. -/
theorem claim_C7_weight_conservation_witness :
    ((Finset.range (c5_cfg.num_bins_r_par * c5_cfg.num_bins_r_trans)).sum
      fun b =>
      (compute_dmat_forest_pairs c5_cfg c5_fns [1] [1] [0] [1] [1] [0] [0] [1]
        [1] [0] dmat_zero).weights_dmat b - dmat_zero.weights_dmat b) =
    ((Finset.range
      (c5_cfg.num_model_bins_r_par * c5_cfg.num_model_bins_r_trans)).sum
      fun b =>
      (compute_dmat_forest_pairs c5_cfg c5_fns [1] [1] [0] [1] [1] [0] [0] [1]
        [1] [0] dmat_zero).weight_eff b - dmat_zero.weight_eff b) := by
  refine claim_C7_weight_conservation c5_cfg c5_fns [1] [1] [0] [1] [1] [0]
    [0] [1] [1] [0] dmat_zero (by decide) (by decide) (by decide) (by decide)
    (by norm_num [c5_cfg]) (by norm_num [c5_cfg]) (by norm_num)
    (by norm_num) (by norm_num [c5_fns]) (by norm_num)

/-- Configuration of the C2 failing input: two parallel data bins, two
parallel model bins. -/
def c2_cfg : Config :=
  { num_bins_r_par := 2, num_bins_r_trans := 1, num_model_bins_r_par := 2,
    num_model_bins_r_trans := 1, r_par_max := 2, r_par_min := 0,
    r_trans_max := 10, reject := 0, ang_correlation := false }

/-- Real functions of the C2 failing input. -/
def c2_fns : RealFns :=
  { cos := fun _ => 1, sin := fun _ => 0, pow10 := fun x => x }

/-- The surviving pairs of the C2 failing input: a fit-order-0 forest of
two pixels paired with one object; the two pixels land in distinct data
and model parallel bins. -/
def c2_ps : List DmatPair :=
  compute_dmat_pairs c2_cfg c2_fns [1/2, 3/2] [0, 0] [0, 0] [1, 1] [0] [0]
    [0] [1] [0]

/-- Modelled from the spec (§4.3, claim C2): the distortion-matrix
increment prescribed for a forest whose fit order is 0 — the identity
term and the mean-subtraction (eta2) term only, the linear (eta4) term
being inactive. -/
def spec_dmat_add_order0 (cfg : Config) (weights1 : List ℚ)
    (num_pixels2 : ℕ) (ps : List DmatPair) (m : ℤ) : ℚ :=
  let M : ℤ := (cfg.num_model_bins_r_par : ℤ) * (cfg.num_model_bins_r_trans : ℤ)
  (ps.map (fun p =>
    (if p.mbin cfg + M * p.bin cfg = m then p.w12 else 0) -
    ((unique_model_bins cfg ps).map (fun umb =>
      if umb + M * p.bin cfg = m then
        p.w12 * eta2 cfg ps weights1 num_pixels2 ((p.j : ℤ) +
          (num_pixels2 : ℤ) * umb)
      else 0)).sum)).sum

/-- C2 (code evaluated at the failing input): `compute_dmat_forest_pairs`
receives no fit-order input at all and always applies the linear (eta4)
term: on a fit-order-0 forest with two pixels in distinct model bins, the
code's `dmat` increment at flattened cell 0 is `0`, while the increment
the claim prescribes for fit order 0 (identity plus mean-subtraction
only) is `1/2`. -/
theorem claim_C2_eta4_not_conditional :
    dmat_add c2_cfg [1, 2] [1, 1] 1 c2_ps 0 = 0 ∧
    spec_dmat_add_order0 c2_cfg [1, 1] 1 c2_ps 0 = 1/2 ∧
    (0 : ℚ) ≠ 1/2 := by
  refine ⟨?_, ?_, by norm_num⟩ <;>
  norm_num [dmat_add, spec_dmat_add_order0, c2_ps, c2_cfg, c2_fns,
    compute_dmat_pairs, pairList, dmat_pair_mask, unique_model_bins,
    eta2, eta4, sum_weights, mean_log_lambda, log_lambda_minus_mean,
    sum_weights_square_log_lambda_minus_mean, DmatPair.bin, DmatPair.mbin,
    bin_index, bin_r_par, bin_r_trans, model_bin_index, model_bin_r_par,
    model_bin_r_trans, np_astype_int, List.flatMap, List.range_succ,
    List.range_zero, List.filterMap_cons, List.map_cons, List.sum_cons,
    List.getD_cons_zero, List.getD_cons_succ, List.getD_nil,
    List.dedup_cons_of_mem, List.dedup_cons_of_not_mem, Function.comp,
    List.zip]

/-- The guarded `filterMap` of `dmat_kept` keeps the whole list when the
guard always holds. -/
theorem filterMap_keep_length (c : ℚ) (l : List ((Obj × ℚ) × ℚ))
    (h : ∀ x ∈ l, c < x.2) :
    (l.filterMap (fun x => if c < x.2 then some x.1 else none)).length =
      l.length := by
  induction l with
  | nil => rfl
  | cons a tl ih =>
    rw [List.filterMap_cons, if_pos (h a (by simp))]
    simpa using ih (fun x hx => h x (by simp [hx]))

/-- With `reject = 1` and draws below `1`, no neighbour is retained. -/
theorem dmat_kept_nil (cfg : Config) (d : Delta) (draws : List ℚ)
    (hrej : cfg.reject = 1) (hdr : ∀ r ∈ draws, r < 1) :
    dmat_kept cfg d draws = [] := by
  unfold dmat_kept
  rw [List.filterMap_eq_nil]
  intro x hx
  have hmem : x.2 ∈ draws := by
    obtain ⟨x1, x2⟩ := x
    exact (List.of_mem_zip hx).2
  rw [if_neg]
  rw [hrej]
  exact not_lt.mpr (le_of_lt (hdr _ hmem))

/-- With `reject = 0`, positive draws and aligned arrays, every neighbour
is retained. -/
theorem dmat_kept_all (cfg : Config) (d : Delta) (draws : List ℚ)
    (hrej : cfg.reject = 0) (hdr : ∀ r ∈ draws, 0 < r)
    (hd : draws.length = d.neighs.length)
    (ha : d.ang.length = d.neighs.length) :
    (dmat_kept cfg d draws).length = d.neighs.length := by
  unfold dmat_kept
  have hP : ∀ x ∈ (d.neighs.zip d.ang).zip draws, cfg.reject < x.2 := by
    intro x hx
    have hmem : x.2 ∈ draws := by
      obtain ⟨x1, x2⟩ := x
      exact (List.of_mem_zip hx).2
    rw [hrej]
    exact hdr _ hmem
  rw [filterMap_keep_length cfg.reject _ hP, List.length_zip,
    List.length_zip, ha, hd]
  simp

/-- C4: with the random draws in the open unit interval (the almost-sure
event for `np.random.rand`) and per-delta arrays aligned, `reject = 0`
makes `compute_dmat` use every pair (`num_pairs_used = num_pairs`), and
`reject = 1` makes it use none and leave every accumulator array
identically zero. -/
theorem claim_C4_reject_law (cfg : Config) (fns : RealFns)
    (ds : List (Delta × List ℚ))
    (hdr : ∀ dd ∈ ds, ∀ r ∈ dd.2, 0 < r ∧ r < 1)
    (hlen : ∀ dd ∈ ds, dd.2.length = dd.1.neighs.length ∧
      dd.1.ang.length = dd.1.neighs.length) :
    (cfg.reject = 0 →
      (compute_dmat cfg fns ds).num_pairs_used =
        (compute_dmat cfg fns ds).num_pairs) ∧
    (cfg.reject = 1 →
      (compute_dmat cfg fns ds).num_pairs_used = 0 ∧
      ∀ (b : ℕ) (m : ℤ),
        (compute_dmat cfg fns ds).acc.weights_dmat b = 0 ∧
        (compute_dmat cfg fns ds).acc.dmat m = 0 ∧
        (compute_dmat cfg fns ds).acc.r_par_eff b = 0 ∧
        (compute_dmat cfg fns ds).acc.r_trans_eff b = 0 ∧
        (compute_dmat cfg fns ds).acc.z_eff b = 0 ∧
        (compute_dmat cfg fns ds).acc.weight_eff b = 0) := by
  constructor
  · intro hrej
    unfold compute_dmat
    have key : ∀ (l : List (Delta × List ℚ)),
        (∀ dd ∈ l, (∀ r ∈ dd.2, 0 < r ∧ r < 1) ∧
          dd.2.length = dd.1.neighs.length ∧
          dd.1.ang.length = dd.1.neighs.length) →
        ∀ r : DmatResult, r.num_pairs_used = r.num_pairs →
        (l.foldl (fun r dd => compute_dmat_step cfg fns r dd.1 dd.2)
          r).num_pairs_used =
        (l.foldl (fun r dd => compute_dmat_step cfg fns r dd.1 dd.2)
          r).num_pairs := by
      intro l
      induction l with
      | nil => intro _ r hr; simpa using hr
      | cons dd tl ih =>
        intro hl r hr
        have hdd := hl dd (by simp)
        have htl : ∀ x ∈ tl, (∀ r ∈ x.2, 0 < r ∧ r < 1) ∧
            x.2.length = x.1.neighs.length ∧
            x.1.ang.length = x.1.neighs.length :=
          fun x hx => hl x (by simp [hx])
        rw [List.foldl_cons]
        refine ih htl _ ?_
        unfold compute_dmat_step
        by_cases h0 : (dmat_kept cfg dd.1 dd.2).length = 0
        · rw [if_pos h0]
          exact hr
        · rw [if_neg h0]
          have hall := dmat_kept_all cfg dd.1 dd.2 hrej
            (fun r hrm => (hdd.1 r hrm).1) hdd.2.1 hdd.2.2
          simp only
          rw [hall, hr]
    exact key ds (fun dd hdd => ⟨hdr dd hdd, hlen dd hdd⟩) dmat_result_zero rfl
  · intro hrej
    have hres : compute_dmat cfg fns ds = dmat_result_zero := by
      unfold compute_dmat
      have key : ∀ (l : List (Delta × List ℚ)),
          (∀ dd ∈ l, ∀ r ∈ dd.2, 0 < r ∧ r < 1) →
          ∀ r : DmatResult,
          (l.foldl (fun r dd => compute_dmat_step cfg fns r dd.1 dd.2) r) =
            r := by
        intro l
        induction l with
        | nil => intro _ r; rfl
        | cons dd tl ih =>
          intro hl r
          rw [List.foldl_cons]
          have hstep : compute_dmat_step cfg fns r dd.1 dd.2 = r := by
            unfold compute_dmat_step
            rw [dmat_kept_nil cfg dd.1 dd.2 hrej
              (fun x hx => (hl dd (by simp) x hx).2)]
            rfl
          rw [hstep]
          exact ih (fun x hx => hl x (by simp [hx])) r
      exact key ds hdr dmat_result_zero
    rw [hres]
    exact ⟨rfl, fun b m => ⟨rfl, rfl, rfl, rfl, rfl, rfl⟩⟩

/-- A `reject = 1` variant of the C4/C10 witness configuration. -/
def c4_cfg1 : Config := { c5_cfg with reject := 1 }

/-- Concrete instantiation of the C4 theorem: one delta with one
neighbour and draw `1/2`; with `reject = 0` the pair is used, with
`reject = 1` nothing is used and the accumulators stay zero. -/
theorem claim_C4_reject_law_witness :
    ((compute_dmat c5_cfg c5_fns [(c5_delta, [1/2])]).num_pairs_used =
      (compute_dmat c5_cfg c5_fns [(c5_delta, [1/2])]).num_pairs) ∧
    ((compute_dmat c4_cfg1 c5_fns [(c5_delta, [1/2])]).num_pairs_used = 0 ∧
      (compute_dmat c4_cfg1 c5_fns [(c5_delta, [1/2])]).acc.weights_dmat 0 = 0 ∧
      (compute_dmat c4_cfg1 c5_fns [(c5_delta, [1/2])]).acc.dmat 0 = 0) := by
  have h0 := claim_C4_reject_law c5_cfg c5_fns [(c5_delta, [1/2])]
    (by norm_num) (by norm_num [c5_delta, Delta.neighs])
  have h1 := claim_C4_reject_law c4_cfg1 c5_fns [(c5_delta, [1/2])]
    (by norm_num) (by norm_num [c5_delta, Delta.neighs])
  refine ⟨h0.1 rfl, (h1.2 rfl).1, ((h1.2 rfl).2 0 0).1, ((h1.2 rfl).2 0 0).2.1⟩

/-- Configuration with `reject = 1/2` for the C10 strictness instance. -/
def c10_cfg : Config := { c5_cfg with reject := 1/2 }

/-- C10: `compute_dmat` adds a delta's neighbour count to `num_pairs`
only after the retained-neighbour check, so `num_pairs` counts exactly
the neighbours of deltas with at least one retained neighbour; and for
`0 < reject < 1` it can be strictly below the total number of
delta-neighbour pairs (witnessed by a fully rejected delta). -/
theorem claim_C10_num_pairs_skips_rejected :
    (∀ (cfg : Config) (fns : RealFns) (ds : List (Delta × List ℚ)),
      (compute_dmat cfg fns ds).num_pairs =
        (ds.map (fun dd => if (dmat_kept cfg dd.1 dd.2).length = 0 then 0
          else dd.1.neighs.length)).sum) ∧
    (0 < c10_cfg.reject ∧ c10_cfg.reject < 1 ∧
      (compute_dmat c10_cfg c5_fns [(c5_delta, [1/4])]).num_pairs <
        ([(c5_delta, [(1/4 : ℚ)])].map (fun dd => dd.1.neighs.length)).sum) := by
  constructor
  · intro cfg fns ds
    unfold compute_dmat
    have key : ∀ (l : List (Delta × List ℚ)) (r : DmatResult),
        (l.foldl (fun r dd => compute_dmat_step cfg fns r dd.1 dd.2)
          r).num_pairs =
        r.num_pairs + (l.map (fun dd =>
          if (dmat_kept cfg dd.1 dd.2).length = 0 then 0
          else dd.1.neighs.length)).sum := by
      intro l
      induction l with
      | nil => intro r; simp
      | cons dd tl ih =>
        intro r
        rw [List.foldl_cons, ih, List.map_cons, List.sum_cons]
        unfold compute_dmat_step
        by_cases h0 : (dmat_kept cfg dd.1 dd.2).length = 0
        · rw [if_pos h0, if_pos h0]
          ring
        · rw [if_neg h0, if_neg h0]
          simp only
          ring
    rw [key ds dmat_result_zero]
    simp [dmat_result_zero]
  · refine ⟨by norm_num [c10_cfg, c5_cfg], by norm_num [c10_cfg, c5_cfg], ?_⟩
    norm_num [compute_dmat, compute_dmat_step, dmat_kept, dmat_result_zero,
      c10_cfg, c5_cfg, c5_fns, c5_delta, c5_obj, Delta.neighs,
      List.zip_cons_cons, List.filterMap_cons]

/-- Configuration of the C3 failing input (`reject = 1/2`). -/
def c3_cfg : Config :=
  { num_bins_r_par := 1, num_bins_r_trans := 1, num_model_bins_r_par := 1,
    num_model_bins_r_trans := 1, r_par_max := 2, r_par_min := 0,
    r_trans_max := 1, reject := 1/2, ang_correlation := false }

/-- Metal context of the C3 failing input. -/
def c3_ctx : MetalCtx :=
  { cos := fun _ => 1, sin := fun _ => 0, pow10 := fun x => x,
    get_r_comov := fun x => x, get_dist_m := fun _ => 0,
    z_evol := fun _ => 1, lambda_abs := 1 }

/-- First neighbour of the C3 failing input (weight 100): retained by the
random mask. -/
def c3_obj0 : Obj :=
  { thingid := 10, z_qso := 0, weights := 100, r_comov := 1, dist_m := 0,
    log_lambda := 0 }

/-- Second neighbour of the C3 failing input (weight 7): selected by the
pixel mask. -/
def c3_obj1 : Obj :=
  { thingid := 11, z_qso := 0, weights := 7, r_comov := 1, dist_m := 0,
    log_lambda := 0 }

/-- The delta of the C3 failing input: two pixels, the first one failing
the contaminant-redshift cut. -/
def c3_delta : Delta :=
  { thingid := 1, z_qso := 3, z := [0, 0], r_comov := [5, 2],
    dist_m := [0, 0], log_lambda := [6, 2], weights := [1, 1],
    delta := [0, 0], neighbours := some [c3_obj0, c3_obj1], ang := [0, 0] }

/-- The random draws of the C3 failing input. -/
def c3_draws : List ℚ := [9/10, 1/10]

/-- C3 (code evaluated at the failing input): in `compute_metal_dmat` the
variable `w` holding the random-retention mask (line 484) is overwritten
by the pixel mask `z1_abs1 < delta1.z_qso` (line 497) before the
neighbour loop indexes `np.array(delta1.neighbours)[w]` (line 507).  Here
the random mask retains only the weight-100 neighbour
(`num_pairs_used = 1`), yet the engine processes exactly the weight-7
neighbour selected by the pixel mask, and `weights_dmat` receives `7`,
not `100`. -/
theorem claim_C3_metal_subset_shadowed :
    metal_rand_mask c3_cfg c3_draws = [true, false] ∧
    metal_pix_mask c3_ctx c3_delta = [false, true] ∧
    (bool_mask (metal_rand_mask c3_cfg c3_draws) c3_delta.neighs).map
      (fun o => o.weights) = [100] ∧
    Option.map (fun l => l.map (fun oa => oa.1.weights))
      (np_bool_index (metal_pix_mask c3_ctx c3_delta)
        (c3_delta.neighs.zip c3_delta.ang)) = some [7] ∧
    Option.map
      (fun r => (r.num_pairs, r.num_pairs_used, r.acc.weights_dmat 0))
      (compute_metal_dmat c3_cfg c3_ctx [(c3_delta, c3_draws)]) =
      some (2, 1, 7) := by
  refine ⟨?_, ?_, ?_, ?_, ?_⟩ <;>
  norm_num [compute_metal_dmat, compute_metal_dmat_step, metal_rand_mask,
    metal_pix_mask, metal_z1_abs, bool_mask, np_bool_index, metal_pixels,
    metal_obj_update, MetalPix.win, MetalPix.winBoth, dmat_result_zero,
    dmat_zero, c3_cfg, c3_ctx, c3_obj0, c3_obj1, c3_delta, c3_draws,
    Delta.neighs, bin_index, bin_r_par, bin_r_trans, model_bin_index,
    model_bin_r_par, model_bin_r_trans, np_astype_int, List.zip_cons_cons,
    List.filterMap_cons, List.range_succ, List.range_zero, decide_eq_true_eq]

/-- A matrix is symmetric. -/
def SymMat (m : ℤ → ℤ → ℚ) : Prop := ∀ i j, m i j = m j i

/-- A matrix vanishes off its diagonal. -/
def DiagMat (m : ℤ → ℤ → ℚ) : Prop := ∀ i j, i ≠ j → m i j = 0

/-- The paired in-place updates `M[a,b] += v; M[b,a] += v` amount to
adding the two mirrored indicators. -/
theorem addAt_addAt (m : ℤ → ℤ → ℚ) (a b : ℤ) (v : ℚ) :
    addAt (addAt m a b v) b a v = fun i j =>
      m i j + (if i = a ∧ j = b then v else 0) +
        (if i = b ∧ j = a then v else 0) := by
  funext i j
  simp only [addAt]
  split_ifs <;> ring

/-- The paired update preserves symmetry. -/
theorem symAdd_preserves {m : ℤ → ℤ → ℚ} (hm : SymMat m) (a b : ℤ) (v : ℚ) :
    SymMat (addAt (addAt m a b v) b a v) := by
  intro i j
  rw [addAt_addAt]
  dsimp only
  have h1 : (i = a ∧ j = b) ↔ (j = b ∧ i = a) := and_comm
  have h2 : (i = b ∧ j = a) ↔ (j = a ∧ i = b) := and_comm
  rw [if_congr h1 rfl rfl, if_congr h2 rfl rfl, hm i j]
  ring

/-- A diagonal in-place update preserves diagonality. -/
theorem addAt_diag_preserves {m : ℤ → ℤ → ℚ} (hm : DiagMat m) (a : ℤ)
    (v : ℚ) : DiagMat (addAt m a a v) := by
  intro i j hij
  simp only [addAt]
  split_ifs with h
  · exact absurd (h.1.trans h.2.symm) hij
  · exact hm i j hij

/-- The Wick matrix invariant: T1 diagonal-only, T2..T6 symmetric. -/
def WickInv (s : WickState) : Prop :=
  DiagMat s.T1 ∧ SymMat s.T2 ∧ SymMat s.T3 ∧ SymMat s.T4 ∧ SymMat s.T5 ∧
    SymMat s.T6

/-- Generic fold-invariance. -/
theorem foldl_inv {α β : Type} (P : β → Prop) (f : β → α → β)
    (hf : ∀ s x, P s → P (f s x)) :
    ∀ (l : List α) (s : β), P s → P (l.foldl f s) := by
  intro l
  induction l with
  | nil => intro s h; exact h
  | cons x tl ih => intro s h; exact ih _ (hf s x h)

/-- The inner loop of `fill_wickT1234` preserves the Wick invariant. -/
theorem fill_wickT1234_inner_inv (c1d_1 : ℕ → ℕ → ℚ) (zw1f zw2f : ℕ → ℚ)
    (p : WickPair) :
    ∀ (l : List WickPair) (s : WickState), WickInv s →
      WickInv (fill_wickT1234_inner c1d_1 zw1f zw2f p l s) := by
  intro l
  induction l with
  | nil => intro s h; exact h
  | cons p2 rest ih =>
    intro s h
    rw [fill_wickT1234_inner]
    apply ih
    split_ifs with h1 h2
    · exact ⟨h.1, symAdd_preserves h.2.1 _ _ _, h.2.2.1, h.2.2.2.1,
        h.2.2.2.2.1, h.2.2.2.2.2⟩
    · exact ⟨h.1, h.2.1, symAdd_preserves h.2.2.1 _ _ _, h.2.2.2.1,
        h.2.2.2.2.1, h.2.2.2.2.2⟩
    · exact ⟨h.1, h.2.1, h.2.2.1, symAdd_preserves h.2.2.2.1 _ _ _,
        h.2.2.2.2.1, h.2.2.2.2.2⟩

/-- The outer loop of `fill_wickT1234` preserves the Wick invariant. -/
theorem fill_wickT1234_outer_inv (c1d_1 : ℕ → ℕ → ℚ) (zw1f zw2f : ℕ → ℚ) :
    ∀ (l : List WickPair) (s : WickState), WickInv s →
      WickInv (fill_wickT1234_outer c1d_1 zw1f zw2f l s) := by
  intro l
  induction l with
  | nil => intro s h; exact h
  | cons p rest ih =>
    intro s h
    rw [fill_wickT1234_outer]
    apply ih
    apply fill_wickT1234_inner_inv
    exact ⟨addAt_diag_preserves h.1 _ _, h.2.1, h.2.2.1, h.2.2.2.1,
      h.2.2.2.2.1, h.2.2.2.2.2⟩

/-- `fill_wickT1234` preserves the Wick invariant. -/
theorem fill_wickT1234_inv (cfg : Config) (wctx : WickCtx)
    (ang r_comov1 r_comov2 z1 z2 weights1 weights2 : List ℚ)
    (c1d_1 : ℕ → ℕ → ℚ) (s : WickState) (h : WickInv s) :
    WickInv (fill_wickT1234 cfg wctx ang r_comov1 r_comov2 z1 z2 weights1
      weights2 c1d_1 s) :=
  fill_wickT1234_outer_inv _ _ _ _ s h

/-- The T5 accumulation preserves the Wick invariant. -/
theorem fill_wickT56_T5_inv (cf : ℕ → ℕ → ℚ) (s12 s34 : List Wick56Pair)
    (s : WickState) (h : WickInv s) :
    WickInv (fill_wickT56_T5 cf s12 s34 s) := by
  unfold fill_wickT56_T5
  refine foldl_inv WickInv _ ?_ s12 s h
  intro st p1 hst
  refine foldl_inv WickInv _ ?_ _ st hst
  intro st2 p2 hst2
  exact ⟨hst2.1, hst2.2.1, hst2.2.2.1, hst2.2.2.2.1,
    symAdd_preserves hst2.2.2.2.2.1 _ _ _, hst2.2.2.2.2.2⟩

/-- The T6 accumulation preserves the Wick invariant. -/
theorem fill_wickT56_T6_inv (wctx : WickCtx) (cf : ℕ → ℕ → ℚ)
    (s12 s34 : List Wick56Pair) (s : WickState) (h : WickInv s) :
    WickInv (fill_wickT56_T6 wctx cf s12 s34 s) := by
  unfold fill_wickT56_T6
  split_ifs with h5
  · exact h
  · refine foldl_inv WickInv _ ?_ s12 s h
    intro st p1 hst
    refine foldl_inv WickInv _ ?_ s34 st hst
    intro st2 p2 hst2
    split_ifs with hth
    · exact hst2
    · exact ⟨hst2.1, hst2.2.1, hst2.2.2.1, hst2.2.2.2.1, hst2.2.2.2.2.1,
        symAdd_preserves hst2.2.2.2.2.2 _ _ _⟩

/-- `fill_wickT56` preserves the Wick invariant. -/
theorem fill_wickT56_inv (cfg : Config) (wctx : WickCtx) (cfw : ℤ → ℚ)
    (ang12 ang34 : List ℚ) (ang13 : ℚ)
    (r_comov1 r_comov2 r3 r4 weights1 weights2 w3 w4 : List ℚ)
    (thingid2 thingid4 : List ℤ) (s : WickState) (h : WickInv s) :
    WickInv (fill_wickT56 cfg wctx cfw ang12 ang34 ang13 r_comov1 r_comov2 r3
      r4 weights1 weights2 w3 w4 thingid2 thingid4 s) := by
  unfold fill_wickT56
  split_ifs with h1
  · dsimp only
    split_ifs with h2 h3
    · exact h
    · exact h
    · exact fill_wickT56_T6_inv _ _ _ _ _ (fill_wickT56_T5_inv _ _ _ _ h)
  · exact h

/-- One retained-delta iteration of `wickT` preserves the Wick
invariant. -/
theorem wickT_item_inv (cfg : Config) (wctx : WickCtx) (s : WickState)
    (it : WickItem) (h : WickInv s) : WickInv (wickT_item cfg wctx s it) := by
  unfold wickT_item
  have h1234 := fill_wickT1234_inv cfg wctx it.ang12 it.r_comov1 it.r_comov2
    it.z1 it.z2 it.weights1 it.weights2 it.c1d_1 s h
  split_ifs with h1 h4
  · exact h
  · cases hcf : wctx.cfWick with
    | none => simp only [hcf]; exact h1234
    | some cfw => simp only [hcf]; exact h1234
  · cases hcf : wctx.cfWick with
    | none => simp only [hcf]; exact h1234
    | some cfw =>
      simp only [hcf]
      refine foldl_inv WickInv _ ?_ it.hot _ h1234
      intro st a hst
      exact fill_wickT56_inv cfg wctx cfw _ _ _ _ _ _ _ _ _ _ _ _ _ _ hst

/-- One healpix iteration of `wickT` preserves the Wick invariant. -/
theorem wickT_group_inv (cfg : Config) (wctx : WickCtx) (s : WickState)
    (g : WickGroup) (h : WickInv s) : WickInv (wickT_group cfg wctx s g) := by
  unfold wickT_group
  refine foldl_inv WickInv _ ?_ _ _ ?_
  · intro st it hst
    exact wickT_item_inv cfg wctx st it hst
  · exact h

/-- The zero Wick state satisfies the invariant. -/
theorem wick_zero_inv : WickInv wick_zero := by
  refine ⟨?_, ?_, ?_, ?_, ?_, ?_⟩ <;> intro i j <;> simp [wick_zero]

/-- C6: the Wick diagram matrices returned by `wickT` satisfy: `T1` has
nonzero entries only on its diagonal, and each of `T2`, `T3`, `T4`, `T5`,
`T6` is exactly symmetric, because every off-diagonal contribution is
added at both triangle positions at once. -/
theorem claim_C6_wick_diagram_shapes (cfg : Config) (wctx : WickCtx)
    (gs : List WickGroup) (i j : ℤ) :
    (i ≠ j → (wickT cfg wctx gs).T1 i j = 0) ∧
    (wickT cfg wctx gs).T2 i j = (wickT cfg wctx gs).T2 j i ∧
    (wickT cfg wctx gs).T3 i j = (wickT cfg wctx gs).T3 j i ∧
    (wickT cfg wctx gs).T4 i j = (wickT cfg wctx gs).T4 j i ∧
    (wickT cfg wctx gs).T5 i j = (wickT cfg wctx gs).T5 j i ∧
    (wickT cfg wctx gs).T6 i j = (wickT cfg wctx gs).T6 j i := by
  have hinv : WickInv (wickT cfg wctx gs) := by
    unfold wickT
    refine foldl_inv WickInv _ ?_ gs wick_zero wick_zero_inv
    intro s g hs
    exact wickT_group_inv cfg wctx s g hs
  exact ⟨hinv.1 i j, hinv.2.1 i j, hinv.2.2.1 i j, hinv.2.2.2.1 i j,
    hinv.2.2.2.2.1 i j, hinv.2.2.2.2.2 i j⟩

/-- A trivial Wick context for the C6/C8 witnesses (no 3-D covariance
model). -/
def c6_wctx : WickCtx :=
  { cos := fun _ => 1, sin := fun _ => 0, zw_del := fun _ => 1,
    zw_obj := fun _ => 1, max_diagram := 4, cfWick := none,
    cfWick_np := 1, cfWick_nt := 1, cfWick_rp_min := 0, cfWick_rp_max := 1,
    cfWick_rt_max := 1 }

/-- A one-delta, one-object Wick work item for the C6/C8 witnesses. -/
def c6_item : WickItem :=
  { ang12 := [0], r_comov1 := [1], r_comov2 := [0], z1 := [1], z2 := [1],
    weights1 := [1], weights2 := [1], c1d_1 := fun _ _ => 1, hot := [] }

/-- Concrete instantiation of the C6 theorem at off-diagonal cell
`(0, 1)` of a one-pair run. -/
theorem claim_C6_wick_diagram_shapes_witness :
    ((0 : ℤ) ≠ 1 ∧
      (wickT c5_cfg c6_wctx [{ items := [c6_item], draws := [3/4] }]).T1 0 1 =
        0) ∧
    (wickT c5_cfg c6_wctx [{ items := [c6_item], draws := [3/4] }]).T2 0 1 =
      (wickT c5_cfg c6_wctx [{ items := [c6_item], draws := [3/4] }]).T2 1 0 :=
  ⟨⟨by decide,
    (claim_C6_wick_diagram_shapes c5_cfg c6_wctx
      [{ items := [c6_item], draws := [3/4] }] 0 1).1 (by decide)⟩,
   (claim_C6_wick_diagram_shapes c5_cfg c6_wctx
      [{ items := [c6_item], draws := [3/4] }] 0 1).2.1⟩

/-- The inner loop of `fill_wickT1234` never touches T5 or T6. -/
theorem fill_wickT1234_inner_T56 (c1d_1 : ℕ → ℕ → ℚ) (zw1f zw2f : ℕ → ℚ)
    (p : WickPair) :
    ∀ (l : List WickPair) (s : WickState),
      (fill_wickT1234_inner c1d_1 zw1f zw2f p l s).T5 = s.T5 ∧
      (fill_wickT1234_inner c1d_1 zw1f zw2f p l s).T6 = s.T6 := by
  intro l
  induction l with
  | nil => intro s; exact ⟨rfl, rfl⟩
  | cons p2 rest ih =>
    intro s
    rw [fill_wickT1234_inner]
    constructor
    · rw [(ih _).1]
      split_ifs <;> rfl
    · rw [(ih _).2]
      split_ifs <;> rfl

/-- The outer loop of `fill_wickT1234` never touches T5 or T6. -/
theorem fill_wickT1234_outer_T56 (c1d_1 : ℕ → ℕ → ℚ) (zw1f zw2f : ℕ → ℚ) :
    ∀ (l : List WickPair) (s : WickState),
      (fill_wickT1234_outer c1d_1 zw1f zw2f l s).T5 = s.T5 ∧
      (fill_wickT1234_outer c1d_1 zw1f zw2f l s).T6 = s.T6 := by
  intro l
  induction l with
  | nil => intro s; exact ⟨rfl, rfl⟩
  | cons p rest ih =>
    intro s
    rw [fill_wickT1234_outer]
    constructor
    · rw [(ih _).1, (fill_wickT1234_inner_T56 c1d_1 zw1f zw2f p rest _).1]
    · rw [(ih _).2, (fill_wickT1234_inner_T56 c1d_1 zw1f zw2f p rest _).2]

/-- C8: when the 3-D covariance model is absent (`cfWick is None`) or the
diagram budget is at most 4, the higher-order stage of `wickT` is skipped
without error: the run coincides with the T1-T4-only pipeline (so the
T1-T4 matrices, weight vector and pair counters are computed normally)
and T5 and T6 are returned as all-zero matrices. -/
theorem claim_C8_higher_order_skipped (cfg : Config) (wctx : WickCtx)
    (gs : List WickGroup)
    (h : wctx.cfWick = none ∨ wctx.max_diagram ≤ 4) :
    wickT cfg wctx gs = wickT1234only cfg wctx gs ∧
    (∀ i j : ℤ, (wickT cfg wctx gs).T5 i j = 0 ∧
      (wickT cfg wctx gs).T6 i j = 0) := by
  have hitem : ∀ (s : WickState) (it : WickItem),
      wickT_item cfg wctx s it = wickT1234only_item cfg wctx s it := by
    intro s it
    unfold wickT_item wickT1234only_item
    rcases h with hn | h4
    · simp only [hn]
    · cases hcf : wctx.cfWick with
      | none => simp only [hcf]
      | some cfw => simp only [hcf, if_pos h4]
  have hfun : wickT_item cfg wctx = wickT1234only_item cfg wctx :=
    funext fun s => funext fun it => hitem s it
  have heq : wickT cfg wctx gs = wickT1234only cfg wctx gs := by
    unfold wickT wickT1234only wickT_group
    rw [hfun]
  refine ⟨heq, ?_⟩
  have hz : (wickT1234only cfg wctx gs).T5 = wick_zero.T5 ∧
      (wickT1234only cfg wctx gs).T6 = wick_zero.T6 := by
    unfold wickT1234only
    refine foldl_inv
      (fun s : WickState => s.T5 = wick_zero.T5 ∧ s.T6 = wick_zero.T6)
      _ ?_ gs wick_zero ⟨rfl, rfl⟩
    intro s g hs
    dsimp only
    refine foldl_inv
      (fun s : WickState => s.T5 = wick_zero.T5 ∧ s.T6 = wick_zero.T6)
      _ ?_ _ _ hs
    intro st it hst
    unfold wickT1234only_item
    split_ifs with h1
    · exact hst
    · unfold fill_wickT1234
      constructor
      · rw [(fill_wickT1234_outer_T56 _ _ _ _ _).1, hst.1]
      · rw [(fill_wickT1234_outer_T56 _ _ _ _ _).2, hst.2]
  intro i j
  rw [heq]
  exact ⟨by rw [hz.1]; rfl, by rw [hz.2]; rfl⟩

/-- Concrete instantiation of the C8 theorem: the witness context has no
3-D covariance model, so the one-delta run equals the T1-T4-only run and
its T5, T6 vanish. -/
theorem claim_C8_higher_order_skipped_witness :
    wickT c5_cfg c6_wctx [{ items := [c6_item], draws := [3/4] }] =
      wickT1234only c5_cfg c6_wctx [{ items := [c6_item], draws := [3/4] }] ∧
    (wickT c5_cfg c6_wctx [{ items := [c6_item], draws := [3/4] }]).T5 0 0 =
      0 ∧
    (wickT c5_cfg c6_wctx [{ items := [c6_item], draws := [3/4] }]).T6 0 0 =
      0 := by
  have h := claim_C8_higher_order_skipped c5_cfg c6_wctx
    [{ items := [c6_item], draws := [3/4] }] (Or.inl rfl)
  exact ⟨h.1, (h.2 0 0).1, (h.2 0 0).2⟩

/-- An object on the same line of sight as the C9 delta (same
`thingid`). -/
def c9_obj : Obj :=
  { thingid := 1, z_qso := 1, weights := 1, r_comov := 0, dist_m := 0,
    log_lambda := 0 }

/-- C9 counterexample: `xcf1d` does not leave the non-`neighbours` fields
of a processed delta unchanged — the clearing loop of lines 890-891 sets
every attribute to `None`, here the `weights` field of a delta that has a
same-`thingid` object. -/
theorem claim_C9_counterexample_xcf1d_clears_all :
    (xcf1d_delta_fields_update [c9_obj] c5_delta).weights = none ∧
    c5_delta.fields.weights = some [1] ∧
    (xcf1d_delta_fields_update [c9_obj] c5_delta).weights ≠
      c5_delta.fields.weights := by
  refine ⟨rfl, rfl, ?_⟩
  intro hcontra
  simp only [xcf1d_delta_fields_update, c9_obj, c5_delta] at hcontra
  exact absurd hcontra (by simp [xcf1d_clear_fields, Delta.fields])

/-- C9 (amended): `compute_xi`, `compute_dmat` and `compute_metal_dmat`
mutate only each delta's transient `neighbours` field (and only when the
delta is actually processed); `wickT` mutates no delta field at all; and
`xcf1d` clears every attribute of each processed delta (one having a
same-`thingid` object), leaving unprocessed deltas untouched. -/
theorem claim_C9_amended_pass_mutations :
    (∀ d : Delta, (compute_xi_delta_update d).neighbours = none ∧
      (compute_xi_delta_update d).thingid = d.thingid ∧
      (compute_xi_delta_update d).z_qso = d.z_qso ∧
      (compute_xi_delta_update d).z = d.z ∧
      (compute_xi_delta_update d).r_comov = d.r_comov ∧
      (compute_xi_delta_update d).dist_m = d.dist_m ∧
      (compute_xi_delta_update d).log_lambda = d.log_lambda ∧
      (compute_xi_delta_update d).weights = d.weights ∧
      (compute_xi_delta_update d).delta = d.delta) ∧
    (∀ (cfg : Config) (d : Delta) (draws : List ℚ),
      (compute_dmat_delta_update cfg d draws).thingid = d.thingid ∧
      (compute_dmat_delta_update cfg d draws).z_qso = d.z_qso ∧
      (compute_dmat_delta_update cfg d draws).z = d.z ∧
      (compute_dmat_delta_update cfg d draws).r_comov = d.r_comov ∧
      (compute_dmat_delta_update cfg d draws).dist_m = d.dist_m ∧
      (compute_dmat_delta_update cfg d draws).log_lambda = d.log_lambda ∧
      (compute_dmat_delta_update cfg d draws).weights = d.weights ∧
      (compute_dmat_delta_update cfg d draws).delta = d.delta) ∧
    (∀ (ctx : MetalCtx) (d : Delta),
      (compute_metal_dmat_delta_update ctx d).thingid = d.thingid ∧
      (compute_metal_dmat_delta_update ctx d).z_qso = d.z_qso ∧
      (compute_metal_dmat_delta_update ctx d).z = d.z ∧
      (compute_metal_dmat_delta_update ctx d).r_comov = d.r_comov ∧
      (compute_metal_dmat_delta_update ctx d).dist_m = d.dist_m ∧
      (compute_metal_dmat_delta_update ctx d).log_lambda = d.log_lambda ∧
      (compute_metal_dmat_delta_update ctx d).weights = d.weights ∧
      (compute_metal_dmat_delta_update ctx d).delta = d.delta) ∧
    (∀ d : Delta, wickT_delta_update d = d) ∧
    (∀ (objsHere : List Obj) (d : Delta),
      ((objsHere.filter (fun q => q.thingid = d.thingid)).length = 0 →
        xcf1d_delta_fields_update objsHere d = d.fields) ∧
      ((objsHere.filter (fun q => q.thingid = d.thingid)).length ≠ 0 →
        xcf1d_delta_fields_update objsHere d =
          xcf1d_clear_fields d.fields)) := by
  refine ⟨?_, ?_, ?_, ?_, ?_⟩
  · intro d
    exact ⟨rfl, rfl, rfl, rfl, rfl, rfl, rfl, rfl, rfl⟩
  · intro cfg d draws
    unfold compute_dmat_delta_update
    split_ifs <;> exact ⟨rfl, rfl, rfl, rfl, rfl, rfl, rfl, rfl⟩
  · intro ctx d
    unfold compute_metal_dmat_delta_update
    split_ifs <;> exact ⟨rfl, rfl, rfl, rfl, rfl, rfl, rfl, rfl⟩
  · intro d
    rfl
  · intro objsHere d
    constructor
    · intro h0
      unfold xcf1d_delta_fields_update
      rw [if_pos h0]
    · intro h0
      unfold xcf1d_delta_fields_update
      rw [if_neg h0]

/-- Concrete instantiation of the amended C9 statement: the C5 delta is
untouched by `xcf1d` when no object matches, fully cleared when one
does, and `compute_xi` clears only its `neighbours`. -/
theorem claim_C9_amended_pass_mutations_witness :
    ((compute_xi_delta_update c5_delta).neighbours = none ∧
      (compute_xi_delta_update c5_delta).weights = c5_delta.weights) ∧
    xcf1d_delta_fields_update [] c5_delta = c5_delta.fields ∧
    xcf1d_delta_fields_update [c9_obj] c5_delta =
      xcf1d_clear_fields c5_delta.fields := by
  refine ⟨⟨(claim_C9_amended_pass_mutations.1 c5_delta).1,
    (claim_C9_amended_pass_mutations.1 c5_delta).2.2.2.2.2.2.2.1⟩,
    (claim_C9_amended_pass_mutations.2.2.2.2 [] c5_delta).1 (by decide),
    (claim_C9_amended_pass_mutations.2.2.2.2 [c9_obj] c5_delta).2 (by decide)⟩
